import Mathlib

/-!
Verification development for the statistics-normalization and webhook-classification
core of django_ses (src/django_ses/views.py).

The embedding is shallow:
* JSON payloads decoded by the simplejson collaborator become the pure tree type
  JTree (the decoder itself is third-party code, so the webhook handler is modelled
  as a function of the decoder's outcome).
* Python exceptions become an error type PyErr threaded through Except; the
  spec's SchemaError is realized in the code by KeyError, the spec's ParseError
  by ValueError, and the classification failures of the webhook are realized by
  400 responses together with the warning-log branch taken.
* Mutable Python dictionaries (needed for stats_to_list, which rewrites the
  Timestamp fields of its deep copy in place) are modelled by an explicit heap:
  a dict value is a reference into a list of association lists, and every
  in-place statement becomes an explicit heap update.
-/

/-- JSON-like values as returned by the simplejson decoder (and by the boto
response dictionaries): null, booleans, integers, strings, arrays and objects.
Floating point payloads are outside the modelled fragment. -/
inductive JTree where
  | jnull : JTree
  | jbool : Bool → JTree
  | jint : Int → JTree
  | jstr : String → JTree
  | jarr : List JTree → JTree
  | jobj : List (String × JTree) → JTree

/-- First-match association lookup, the model of a Python dict subscript/get on
the decoded tree (JSON objects have unique keys, so first-match is exact). -/
def lookupF (fs : List (String × JTree)) (k : String) : Option JTree :=
  match fs with
  | [] => none
  | (k', v) :: rest => if k' = k then some v else lookupF rest k

/-- Python exception outcomes reachable in the modelled code.
keyError embeds KeyError (a missing dict key; the spec calls this SchemaError),
valueError embeds ValueError (malformed numeric or timestamp strings; the
spec calls this ParseError), typeError embeds TypeError, attributeError embeds
AttributeError (calling .get on a non-dict). heapFault is internal to the heap
model (a dangling reference or exhausted recursion fuel); it is unreachable
from any well-formed input and no Python exception corresponds to it. -/
inductive PyErr where
  | keyError : String → PyErr
  | valueError : PyErr
  | typeError : PyErr
  | attributeError : PyErr
  | heapFault : PyErr
deriving DecidableEq, Repr

/-- HTTP responses produced by handle_bounce: HttpResponse() on success,
HttpResponseBadRequest() on a rejected payload. -/
inductive HttpResp where
  | httpOk : HttpResp
  | badRequest : HttpResp
deriving DecidableEq, Repr

/-- Notification events dispatched through the django_ses signals:
signals.bounce_received.send(mail_obj, bounce_obj) and
signals.complaint_received.send(mail_obj, complaint_obj). -/
inductive SesEvent where
  | bounce : JTree → JTree → SesEvent
  | complaint : JTree → JTree → SesEvent

/-- Structured log records emitted by handle_bounce, one constructor per
logging statement in the source; the payload fields are the extracted values. -/
inductive LogRec where
  | warnBadJson : LogRec
  | infoBounce : JTree → JTree → JTree → LogRec
  | infoComplaint : JTree → JTree → LogRec
  | warnInvalidType : JTree → LogRec

/-- Complete observable outcome of one handle_bounce call: the signal events
sent, the log records emitted, and either the returned HTTP response or the
uncaught Python exception. -/
structure HookRes where
  events : List SesEvent
  logs : List LogRec
  resp : Except PyErr HttpResp

/-- Python dict .get(k) on a decoded value: None (null) when the key is absent,
AttributeError when the receiver is not a dict. -/
def jGet (t : JTree) (k : String) : Except PyErr JTree :=
  match t with
  | .jobj fs => .ok ((lookupF fs k).getD .jnull)
  | _ => .error .attributeError

/-- Python dict .get(k, dflt): the stored value (even if null) when the key is
present, dflt when absent, AttributeError when the receiver is not a dict. -/
def jGetD (t : JTree) (k : String) (dflt : JTree) : Except PyErr JTree :=
  match t with
  | .jobj fs => .ok ((lookupF fs k).getD dflt)
  | _ => .error .attributeError

/-- handle_bounce (views.py lines 155-228), as a function of the simplejson
decoding outcome of the raw request body: none models a body that is not valid
JSON (json.loads raised ValueError). Every branch mirrors the source: bad JSON
logs a warning and returns 400; a Bounce notification extracts mail and bounce
(bounce defaulting to an empty dict), logs, sends exactly one bounce signal and
returns 200; a Complaint notification is symmetric; any other notificationType
logs a warning and returns 400. The .get calls raise AttributeError when their
receiver is not a dict, which propagates uncaught. -/
def handle_bounce (parsed : Option JTree) : HookRes :=
  match parsed with
  | none => ⟨[], [.warnBadJson], .ok .badRequest⟩
  | some hookData =>
    match jGet hookData "mail" with
    | .error e => ⟨[], [], .error e⟩
    | .ok mailObj =>
    match jGet hookData "notificationType" with
    | .error e => ⟨[], [], .error e⟩
    | .ok nt =>
    match nt with
    | .jstr "Bounce" =>
      (match jGetD hookData "bounce" (.jobj []) with
      | .error e => ⟨[], [], .error e⟩
      | .ok bounceObj =>
      match jGet bounceObj "feedbackId" with
      | .error e => ⟨[], [], .error e⟩
      | .ok fid =>
      match jGet bounceObj "bounceType" with
      | .error e => ⟨[], [], .error e⟩
      | .ok bty =>
      match jGet bounceObj "bounceSubType" with
      | .error e => ⟨[], [], .error e⟩
      | .ok bsub =>
        ⟨[.bounce mailObj bounceObj], [.infoBounce fid bty bsub], .ok .httpOk⟩)
    | .jstr "Complaint" =>
      (match jGetD hookData "complaint" (.jobj []) with
      | .error e => ⟨[], [], .error e⟩
      | .ok complaintObj =>
      match jGet complaintObj "feedbackId" with
      | .error e => ⟨[], [], .error e⟩
      | .ok fid =>
      match jGet complaintObj "complaintFeedbackType" with
      | .error e => ⟨[], [], .error e⟩
      | .ok fty =>
        ⟨[.complaint mailObj complaintObj], [.infoComplaint fid fty], .ok .httpOk⟩)
    | _ => ⟨[], [.warnInvalidType nt], .ok .badRequest⟩

/-! Part 2 of the data model: integers, timestamps, timezones, and the dict
heap used by the statistics functions. -/

/-- ASCII digit test by code point (48..57), used by the numeric and timestamp
parsers below. -/
def isDigitCh (c : Char) : Bool :=
  decide (48 ≤ c.val.toNat) && decide (c.val.toNat ≤ 57)

/-- Numeric value of an ASCII digit character. -/
def digitVal (c : Char) : Nat := c.val.toNat - 48

/-- Whitespace characters stripped by Python's int(str): space, tab, newline,
carriage return, vertical tab, form feed (by code point). -/
def isPySpace (c : Char) : Bool :=
  c.val.toNat == 32 || c.val.toNat == 9 || c.val.toNat == 10 ||
  c.val.toNat == 13 || c.val.toNat == 11 || c.val.toNat == 12

/-- Leading and trailing whitespace removal, as done by int(str). -/
def stripWs (cs : List Char) : List Char :=
  ((cs.dropWhile isPySpace).reverse.dropWhile isPySpace).reverse

/-- Base-10 value of a digit string. -/
def digitsToInt (ds : List Char) : Int :=
  ds.foldl (fun n c => 10 * n + (digitVal c : Int)) 0

/-- Python int(s) for a str argument: optional surrounding whitespace, an
optional sign (code points 43 and 45), then one or more ASCII digits; anything
else raises ValueError (modelled by none). -/
def pyIntParse (cs : List Char) : Option Int :=
  match stripWs cs with
  | [] => none
  | c :: ds =>
    if c.val.toNat == 43 then
      if !ds.isEmpty && ds.all isDigitCh then some (digitsToInt ds) else none
    else if c.val.toNat == 45 then
      if !ds.isEmpty && ds.all isDigitCh then some (-(digitsToInt ds)) else none
    else if (c :: ds).all isDigitCh then some (digitsToInt (c :: ds)) else none

/-- Gregorian leap year rule, as in Python's datetime. -/
def isLeap (y : Nat) : Bool :=
  (y % 4 == 0 && y % 100 != 0) || y % 400 == 0

/-- Number of days of a month (1..12), as validated by datetime's constructor. -/
def daysInMonth (y m : Nat) : Nat :=
  match m with
  | 1 => 31
  | 2 => if isLeap y then 29 else 28
  | 3 => 31
  | 4 => 30
  | 5 => 31
  | 6 => 30
  | 7 => 31
  | 8 => 31
  | 9 => 30
  | 10 => 31
  | 11 => 30
  | 12 => 31
  | _ => 0

/-- Days in the years before year y (year numbering from 1, proleptic
Gregorian), as in datetime.date.toordinal. -/
def daysBeforeYear (y : Nat) : Nat :=
  365 * (y - 1) + (y - 1) / 4 - (y - 1) / 100 + (y - 1) / 400

/-- Days in the months of year y before month m. -/
def daysBeforeMonth (y m : Nat) : Nat :=
  (match m with
   | 1 => 0
   | 2 => 31
   | 3 => 59
   | 4 => 90
   | 5 => 120
   | 6 => 151
   | 7 => 181
   | 8 => 212
   | 9 => 243
   | 10 => 273
   | 11 => 304
   | 12 => 334
   | _ => 0)
  + (if 3 ≤ m then if isLeap y then 1 else 0 else 0)

/-- Proleptic Gregorian ordinal of a date, with 0001-01-01 being day 1
(datetime.date.toordinal). -/
def toOrdinal (y m d : Nat) : Nat :=
  daysBeforeYear y + daysBeforeMonth y m + d

/-- Seconds since 1970-01-01T00:00:00 of a naive datetime (the ordinal of the
epoch date is 719163); an injective, monotone encoding of datetime's fields
that supports the comparisons and conversions the code performs. -/
def tsInstant (y m d hh mi ss : Nat) : Int :=
  ((toOrdinal y m d : Int) - 719163) * 86400
    + (hh : Int) * 3600 + (mi : Int) * 60 + (ss : Int)

/-- One numeric field of strptime in the style of CPython's _strptime regexes:
reads two digits if the two-digit value lies in lo2..hi2, else one digit whose
value must be at least lo1 and at most 9 (regex backtracking into the following
literal can never succeed otherwise, so this deterministic reading is exact). -/
def readF (cs : List Char) (lo2 hi2 lo1 : Nat) : Option (Nat × List Char) :=
  match cs with
  | c1 :: c2 :: rest =>
    if isDigitCh c1 then
      if isDigitCh c2 then
        let v := 10 * digitVal c1 + digitVal c2
        if lo2 ≤ v then if v ≤ hi2 then some (v, rest) else none else none
      else
        if lo1 ≤ digitVal c1 then some (digitVal c1, c2 :: rest) else none
    else none
  | [c1] =>
    if isDigitCh c1 then
      if lo1 ≤ digitVal c1 then some (digitVal c1, []) else none
    else none
  | [] => none

/-- datetime.strptime(s, "%Y-%m-%dT%H:%M:%SZ") followed by the constructor's
range validation, returning the represented instant in seconds since the epoch;
none models the ValueError raised on a malformed timestamp. %Y is exactly four
digits; month, day, hour, minute, second follow CPython's one-or-two-digit
field regexes; the day is validated against the month length and the year
against MINYEAR = 1. -/
def parseTimestamp (s : String) : Option Int :=
  match s.toList with
  | y1 :: y2 :: y3 :: y4 :: '-' :: r1 =>
    if isDigitCh y1 && isDigitCh y2 && isDigitCh y3 && isDigitCh y4 then
      let y := 1000 * digitVal y1 + 100 * digitVal y2 + 10 * digitVal y3 + digitVal y4
      match readF r1 1 12 1 with
      | some (m, '-' :: r2) =>
        (match readF r2 1 31 1 with
        | some (d, 'T' :: r3) =>
          (match readF r3 0 23 0 with
          | some (hh, ':' :: r4) =>
            (match readF r4 0 59 0 with
            | some (mi, ':' :: r5) =>
              (match readF r5 0 59 0 with
              | some (ss, ['Z']) =>
                if 1 ≤ y then
                  if d ≤ daysInMonth y m then some (tsInstant y m d hh mi ss)
                  else none
                else none
              | _ => none)
            | _ => none)
          | _ => none)
        | _ => none)
      | _ => none
    else none
  | _ => none

/-- pytz timezone: offsetAt gives the zone's UTC offset in seconds as a
function of the UTC instant (instant-dependence models daylight saving time).
In the source this object is current_tz = pytz.timezone(settings.TIME_ZONE);
the zone lookup itself is external library code. -/
structure PyTZ where
  offsetAt : Int → Int

/-- Aware datetime: the wall-clock reading (encoded in seconds, as by
tsInstant) together with the attached UTC offset of its tzinfo. The
represented UTC instant is wall - off. -/
structure PyDateTime where
  wall : Int
  off : Int
deriving DecidableEq, Repr

/-- UTC instant represented by an aware datetime. -/
def PyDateTime.utc (d : PyDateTime) : Int := d.wall - d.off

/-- pytz.utc.localize of the naive datetime returned by strptime: attaches
offset zero without shifting the wall clock. -/
def utcLocalize (n : Int) : PyDateTime := ⟨n, 0⟩

/-- datetime.astimezone(tz) with a pytz zone: shift the UTC instant into the
zone's local wall clock, attaching the offset in force at that instant. -/
def astimezone (tz : PyTZ) (d : PyDateTime) : PyDateTime :=
  ⟨d.utc + tz.offsetAt d.utc, tz.offsetAt d.utc⟩

/-- tz.normalize(dt): pytz recomputes the localization from the datetime's UTC
instant (for a value freshly produced by astimezone this is the identity). -/
def tzNormalize (tz : PyTZ) (d : PyDateTime) : PyDateTime :=
  ⟨d.utc + tz.offsetAt d.utc, tz.offsetAt d.utc⟩

/-- Runtime values of the statistics pipeline. Python dicts are mutable, so a
dict value is a reference (pref) into the heap below; lists reached by the
pipeline are never mutated in place, so they stay structural (plist); strings,
integers, booleans, None and datetimes are immutable atoms. -/
inductive PyVal where
  | pnone : PyVal
  | pbool : Bool → PyVal
  | pint : Int → PyVal
  | pstr : String → PyVal
  | pdt : PyDateTime → PyVal
  | plist : List PyVal → PyVal
  | pref : Nat → PyVal

/-- Contents of one dict object: an association list in insertion order. -/
abbrev SDict := List (String × PyVal)

/-- The dict heap: object r is the dict at index r. -/
abbrev Heap := List SDict

/-- First-match association lookup in a dict object. -/
def dGet (d : SDict) (k : String) : Option PyVal :=
  match d with
  | [] => none
  | (k', v) :: rest => if k' = k then some v else dGet rest k

/-- Python dict item assignment d[k] = v: replaces the value in place when the
key exists (keeping its position), appends otherwise. -/
def dSet (d : SDict) (k : String) (v : PyVal) : SDict :=
  match d with
  | [] => [(k, v)]
  | (k', v') :: rest => if k' = k then (k, v) :: rest else (k', v') :: dSet rest k v

/-- Python subscript x[k] with a string key: dict lookup raising KeyError when
the key is missing, TypeError when x is not a dict. heapFault marks a dangling
reference, impossible in a real Python run. -/
def getItem (h : Heap) (v : PyVal) (k : String) : Except PyErr PyVal :=
  match v with
  | .pref r =>
    (match h[r]? with
     | some d =>
       match dGet d k with
       | some x => .ok x
       | none => .error (.keyError k)
     | none => .error .heapFault)
  | _ => .error .typeError

/-- Python item assignment x[k] = e: in-place update of the referenced dict. -/
def setItem (h : Heap) (v : PyVal) (k : String) (x : PyVal) : Except PyErr Heap :=
  match v with
  | .pref r =>
    (match h[r]? with
     | some d => .ok (h.set r (dSet d k x))
     | none => .error .heapFault)
  | _ => .error .typeError

/-- Conversion loop of stats_to_list (views.py lines 50-56): for each
datapoint, when a timezone is available, read the Timestamp string, parse it
as UTC (strptime, then pytz.utc.localize), convert it into the configured zone
(astimezone, then normalize) and write the aware datetime back into the
datapoint dict in place; then append the datapoint to the result list. With no
timezone the datapoint is appended untouched. Errors propagate as exceptions,
leaving the updates already made in the heap. -/
def convertLoop (tzOpt : Option PyTZ) : Heap → List PyVal → Heap × Except PyErr (List PyVal)
  | h, [] => (h, .ok [])
  | h, dp :: rest =>
    match tzOpt with
    | none =>
      (match convertLoop tzOpt h rest with
       | (h', .error e) => (h', .error e)
       | (h', .ok dps) => (h', .ok (dp :: dps)))
    | some tz =>
      match getItem h dp "Timestamp" with
      | .error e => (h, .error e)
      | .ok tv =>
      match tv with
      | .pstr s =>
        (match parseTimestamp s with
         | none => (h, .error .valueError)
         | some n =>
           match setItem h dp "Timestamp"
               (.pdt (tzNormalize tz (astimezone tz (utcLocalize n)))) with
           | .error e => (h, .error e)
           | .ok h2 =>
             match convertLoop tzOpt h2 rest with
             | (h', .error e) => (h', .error e)
             | (h', .ok dps) => (h', .ok (dp :: dps)))
      | _ => (h, .error .typeError)

/-- Python subscript t[k] on a decoded tree value (the immutable uses in
quota_parse and emails_parse): KeyError when missing, TypeError on a
non-dict. -/
def jGetItem (t : JTree) (k : String) : Except PyErr JTree :=
  match t with
  | .jobj fs =>
    (match lookupF fs k with
     | some v => .ok v
     | none => .error (.keyError k))
  | _ => .error .typeError

/-! Part 3: the statistics functions themselves. -/

/-- Python int(x) as applied to a datapoint field: identity on ints, the
standard bool coercion, the string parse above (ValueError on failure), and
TypeError on every other value. -/
def pyIntOf (v : PyVal) : Except PyErr Int :=
  match v with
  | .pint n => .ok n
  | .pbool b => .ok (if b then 1 else 0)
  | .pstr s =>
    (match pyIntParse s.toList with
     | some n => .ok n
     | none => .error .valueError)
  | _ => .error .typeError

/-- Result dict of sum_stats, with one field per key of the returned literal
dict in views.py lines 97-102. -/
structure StatsSummary where
  bounces : Int
  complaints : Int
  deliveryAttempts : Int
  rejects : Int
deriving DecidableEq, Repr

/-- Field-wise addition of summaries. -/
def StatsSummary.add (a b : StatsSummary) : StatsSummary :=
  ⟨a.bounces + b.bounces, a.complaints + b.complaints,
   a.deliveryAttempts + b.deliveryAttempts, a.rejects + b.rejects⟩

/-- Accumulating loop of sum_stats (views.py lines 91-95): the four running
totals, updated per datapoint by int() of the four fields in source order. -/
def sumLoop (h : Heap) : List PyVal → Int → Int → Int → Int → Except PyErr StatsSummary
  | [], tb, tc, td, tr => .ok ⟨tb, tc, td, tr⟩
  | dp :: rest, tb, tc, td, tr =>
    match getItem h dp "Bounces" with
    | .error e => .error e
    | .ok vb =>
    match pyIntOf vb with
    | .error e => .error e
    | .ok b =>
    match getItem h dp "Complaints" with
    | .error e => .error e
    | .ok vc =>
    match pyIntOf vc with
    | .error e => .error e
    | .ok c =>
    match getItem h dp "DeliveryAttempts" with
    | .error e => .error e
    | .ok vd =>
    match pyIntOf vd with
    | .error e => .error e
    | .ok d =>
    match getItem h dp "Rejects" with
    | .error e => .error e
    | .ok vr =>
    match pyIntOf vr with
    | .error e => .error e
    | .ok r =>
      sumLoop h rest (tb + b) (tc + c) (td + d) (tr + r)

/-- sum_stats (views.py lines 82-102): summarize a list of datapoint dicts. -/
def sum_stats (h : Heap) (stats_data : List PyVal) : Except PyErr StatsSummary :=
  sumLoop h stats_data 0 0 0 0

/-! Sorting infrastructure: Python's sorted and list.sort are stable ascending
sorts; a stable ascending sort is modelled by Mathlib's insertionSort, which
produces the same output list as CPython's timsort for any total preorder. -/

/-- Lexicographic code-point comparison of strings, Python's str order. -/
def strLe : List Char → List Char → Bool
  | [], _ => true
  | _ :: _, [] => false
  | a :: as, b :: bs =>
    if a.val.toNat < b.val.toNat then true
    else if b.val.toNat < a.val.toNat then false
    else strLe as bs

/-- Constructor tag used to totalize the sort-key order across value kinds. -/
def pyTag : PyVal → Nat
  | .pnone => 0
  | .pbool _ => 1
  | .pint _ => 2
  | .pstr _ => 3
  | .pdt _ => 4
  | .plist _ => 5
  | .pref _ => 6

/-- Numeric component of the sort key. For an aware datetime this is its UTC
instant, which is how Python compares aware datetimes. -/
def pyKeyNum : PyVal → Int
  | .pbool b => if b then 1 else 0
  | .pint n => n
  | .pdt d => d.utc
  | .plist l => l.length
  | .pref r => r
  | _ => 0

/-- String component of the sort key. -/
def pyKeyStr : PyVal → List Char
  | .pstr s => s.toList
  | _ => []

/-- Total Boolean order on sort keys. On two strings it is Python's
lexicographic comparison; on two aware datetimes it is Python's instant
comparison. The remaining mixed combinations (on which CPython's key
comparison raises TypeError, and which no theorem below reaches) are totalized
by the constructor tag so that the order is transitive and total. -/
def pyKeyLE (a b : PyVal) : Bool :=
  if pyTag a < pyTag b then true
  else if pyTag b < pyTag a then false
  else if pyKeyNum a < pyKeyNum b then true
  else if pyKeyNum b < pyKeyNum a then false
  else strLe (pyKeyStr a) (pyKeyStr b)

/-- Sort relation on (key, datapoint) pairs: CPython's list.sort(key=f)
computes every key once up front and compares only keys. -/
def pairKeyRel (p q : PyVal × PyVal) : Prop := pyKeyLE p.1 q.1 = true

instance pairKeyRelDec : DecidableRel pairKeyRel :=
  fun p q => inferInstanceAs (Decidable (pyKeyLE p.1 q.1 = true))

/-- Key extraction pass of datapoints.sort(key=lambda x: x['Timestamp']):
every key is read before any comparison; a datapoint without the key raises
KeyError here. -/
def keysOf (h : Heap) : List PyVal → Except PyErr (List PyVal)
  | [] => .ok []
  | dp :: rest =>
    match getItem h dp "Timestamp" with
    | .error e => .error e
    | .ok k =>
      match keysOf h rest with
      | .error e => .error e
      | .ok ks => .ok (k :: ks)

/-- datapoints.sort(key=lambda x: x['Timestamp']) (views.py line 58): decorate
with keys, stable-sort by key, undecorate. -/
def sortByTs (h : Heap) (dps : List PyVal) : Except PyErr (List PyVal) :=
  match keysOf h dps with
  | .error e => .error e
  | .ok ks => .ok ((List.insertionSort pairKeyRel (ks.zip dps)).map Prod.snd)

/-! Deep copy. copy.deepcopy copies the object graph, allocating fresh dicts;
atoms are immutable and returned as-is. The model recurses on explicit fuel,
decremented once per nesting level; stats_to_list passes fuel h.length + 1,
which is enough for every response shape considered in the theorems below
(fuel exhaustion gives heapFault, which no Python execution produces). The
memoization deepcopy uses for aliased sub-objects is irrelevant for
tree-shaped decoded responses, which contain no aliasing. -/

/-- One element-wise pass of deepcopy over a list value, threading the heap
through the copy function f. -/
def dcListH (f : Heap → PyVal → Option (Heap × PyVal)) :
    Heap → List PyVal → Option (Heap × List PyVal)
  | h, [] => some (h, [])
  | h, v :: vs =>
    match f h v with
    | none => none
    | some (h1, v') =>
      match dcListH f h1 vs with
      | none => none
      | some (h2, vs') => some (h2, v' :: vs')

/-- One entry-wise pass of deepcopy over a dict body, threading the heap. -/
def dcFieldsH (f : Heap → PyVal → Option (Heap × PyVal)) :
    Heap → SDict → Option (Heap × SDict)
  | h, [] => some (h, [])
  | h, kv :: rest =>
    match f h kv.2 with
    | none => none
    | some (h1, v') =>
      match dcFieldsH f h1 rest with
      | none => none
      | some (h2, rest') => some (h2, (kv.1, v') :: rest')

/-- copy.deepcopy of a value: a referenced dict is copied entry by entry and
the copy is appended to the heap as a fresh object; a list is copied element
by element; atoms are returned unchanged. -/
def dcVal : Nat → Heap → PyVal → Option (Heap × PyVal)
  | 0, _, _ => none
  | fuel + 1, h, v =>
    match v with
    | .pref r =>
      (match h[r]? with
       | none => none
       | some d =>
         match dcFieldsH (dcVal fuel) h d with
         | none => none
         | some (h1, d') => some (h1 ++ [d'], .pref h1.length))
    | .plist l =>
      (match dcListH (dcVal fuel) h l with
       | none => none
       | some (h1, l') => some (h1, .plist l'))
    | x => some (h, x)

/-- stats_to_list (views.py lines 37-60) over the dict heap. The localize
argument models the pytz module as passed through the localize parameter,
already composed with settings.TIME_ZONE: none models pytz being uninstalled
(the falsy branch, current_tz = None), some tz models
current_tz = pytz.timezone(settings.TIME_ZONE). The function unwraps the two
envelope keys, deep-copies the result object, converts each datapoint's
Timestamp in place when a timezone is available, and stable-sorts the
datapoints by their (possibly converted) Timestamp value. The returned heap is
the post-call heap, also on the error paths, so that mutation of pre-existing
objects is observable. Iterating SendDataPoints when it is not a list is
outside the modelled fragment and yields typeError. -/
def stats_to_list (h : Heap) (stats_dict : PyVal) (localize : Option PyTZ) :
    Heap × Except PyErr (List PyVal) :=
  match getItem h stats_dict "GetSendStatisticsResponse" with
  | .error e => (h, .error e)
  | .ok v1 =>
  match getItem h v1 "GetSendStatisticsResult" with
  | .error e => (h, .error e)
  | .ok result0 =>
  match dcVal (h.length + 1) h result0 with
  | none => (h, .error .heapFault)
  | some (h1, result) =>
  match getItem h1 result "SendDataPoints" with
  | .error e => (h1, .error e)
  | .ok sdp =>
  match sdp with
  | .plist dps =>
    (match convertLoop localize h1 dps with
     | (h2, .error e) => (h2, .error e)
     | (h2, .ok datapoints) =>
       match sortByTs h2 datapoints with
       | .error e => (h2, .error e)
       | .ok out => (h2, .ok out))
  | _ => (h1, .error .typeError)

/-- quota_parse (views.py lines 63-67): unwrap the two envelope keys of the
send-quota response. -/
def quota_parse (quota_dict : JTree) : Except PyErr JTree :=
  match jGetItem quota_dict "GetSendQuotaResponse" with
  | .error e => .error e
  | .ok r1 => jGetItem r1 "GetSendQuotaResult"

/-- String sort relation for sorted(emails). -/
def strRel (a b : String) : Prop := strLe a.toList b.toList = true

instance strRelDec : DecidableRel strRel :=
  fun a b => inferInstanceAs (Decidable (strLe a.toList b.toList = true))

/-- Checks that every decoded list element is a string, returning them;
sorted() over the modelled fragment is only applied to string lists (the
verified-email response), so other element types map to typeError. -/
def asStrings : List JTree → Option (List String)
  | [] => some []
  | .jstr s :: rest => (asStrings rest).map (s :: ·)
  | _ => none

/-- emails_parse (views.py lines 70-79): unwrap the two envelope keys, read the
VerifiedEmailAddresses list, and return sorted(emails) — a stable ascending
lexicographic sort, duplicates preserved. -/
def emails_parse (emails_dict : JTree) : Except PyErr (List JTree) :=
  match jGetItem emails_dict "ListVerifiedEmailAddressesResponse" with
  | .error e => .error e
  | .ok r1 =>
  match jGetItem r1 "ListVerifiedEmailAddressesResult" with
  | .error e => .error e
  | .ok result =>
  match jGetItem result "VerifiedEmailAddresses" with
  | .error e => .error e
  | .ok lst =>
  match lst with
  | .jarr emails =>
    (match asStrings emails with
     | some ss => .ok ((List.insertionSort strRel ss).map .jstr)
     | none => .error .typeError)
  | _ => .error .typeError

/-! Allocation of a decoded response tree into the heap, and the canonical
send-statistics response shapes used by the theorems. -/

mutual
/-- Materialize a decoded tree as a runtime value, allocating one heap dict
per JSON object (children before parents, fields left to right). -/
def allocVal (h : Heap) : JTree → Heap × PyVal
  | .jnull => (h, .pnone)
  | .jbool b => (h, .pbool b)
  | .jint n => (h, .pint n)
  | .jstr s => (h, .pstr s)
  | .jarr l =>
    let p := allocList h l
    (p.1, .plist p.2)
  | .jobj fs =>
    let p := allocFields h fs
    (p.1 ++ [p.2], .pref p.1.length)

/-- Materialize the elements of a decoded array left to right. -/
def allocList (h : Heap) : List JTree → Heap × List PyVal
  | [] => (h, [])
  | t :: ts =>
    let p := allocVal h t
    let q := allocList p.1 ts
    (q.1, p.2 :: q.2)

/-- Materialize the entries of a decoded object left to right. -/
def allocFields (h : Heap) : List (String × JTree) → Heap × SDict
  | [] => (h, [])
  | kt :: fs =>
    let p := allocVal h kt.2
    let q := allocFields p.1 fs
    (q.1, (kt.1, p.2) :: q.2)
end

/-- Scalar decoded values: the ones that allocate nothing (not an object, not
an array). Datapoint fields in a send-statistics response are all strings,
hence scalar. -/
def scalarJ : JTree → Bool
  | .jarr _ => false
  | .jobj _ => false
  | _ => true

/-- All field values of a decoded object are scalar. -/
def scalarFields (fs : List (String × JTree)) : Bool :=
  fs.all fun kv => scalarJ kv.2

/-- Runtime value of a scalar decoded value (unreached on arrays/objects). -/
def primOf : JTree → PyVal
  | .jnull => .pnone
  | .jbool b => .pbool b
  | .jint n => .pint n
  | .jstr s => .pstr s
  | .jarr _ => .pnone
  | .jobj _ => .pnone

/-- Dict body allocated for an object all of whose fields are scalar. -/
def primMap (fs : List (String × JTree)) : SDict :=
  fs.map fun kv => (kv.1, primOf kv.2)

/-- The two envelope keys of a send-statistics response wrapping the result
object r. -/
def statsEnv (r : JTree) : JTree :=
  .jobj [("GetSendStatisticsResponse", .jobj [("GetSendStatisticsResult", r)])]

/-- Canonical send-statistics response carrying the given datapoint objects
under SendDataPoints. -/
def statsTree (dps : List (List (String × JTree))) : JTree :=
  statsEnv (.jobj [("SendDataPoints", .jarr (dps.map JTree.jobj))])

/-- References a, a+1, ..., a+k-1 as runtime values. -/
def refRange (a k : Nat) : List PyVal :=
  (List.range k).map fun i => PyVal.pref (a + i)

/-- Timestamp string of a decoded datapoint object, when present. -/
def fieldTs (fs : List (String × JTree)) : Option String :=
  match lookupF fs "Timestamp" with
  | some (.jstr s) => some s
  | _ => none

/-- Parsed instant of a decoded datapoint's Timestamp, when present and well
formed. -/
def dpInst (fs : List (String × JTree)) : Option Int :=
  match fieldTs fs with
  | some s => parseTimestamp s
  | none => none

/-- The aware datetime stats_to_list writes back for the instant n converted
into tz. -/
def convDT (tz : PyTZ) (n : Int) : PyDateTime :=
  tzNormalize tz (astimezone tz (utcLocalize n))

/-- Datapoint dict after the in-place Timestamp conversion of the loop. -/
def convDict (tz : PyTZ) (d : SDict) : SDict :=
  match dGet d "Timestamp" with
  | some (.pstr s) =>
    (match parseTimestamp s with
     | some n => dSet d "Timestamp" (.pdt (convDT tz n))
     | none => d)
  | _ => d

mutual
/-- Every reference occurring in a runtime value points at or above index n
(freshness with respect to the first n heap cells). -/
def valRefsGE (n : Nat) : PyVal → Bool
  | .pref r => decide (n ≤ r)
  | .plist l => listRefsGE n l
  | _ => true

/-- Freshness of every element of a list value. -/
def listRefsGE (n : Nat) : List PyVal → Bool
  | [] => true
  | v :: vs => valRefsGE n v && listRefsGE n vs
end

/-- Freshness of every value stored in a dict body. -/
def dictRefsGE (n : Nat) (d : SDict) : Bool :=
  d.all fun kv => valRefsGE n kv.2

/-- Contribution of one datapoint to the running totals: int() of the four
fields in source order, as a summary value (a refactoring of one iteration of
the sum_stats loop body, used to state its lemmas). -/
def dpSummary (h : Heap) (dp : PyVal) : Except PyErr StatsSummary :=
  match getItem h dp "Bounces" with
  | .error e => .error e
  | .ok vb =>
  match pyIntOf vb with
  | .error e => .error e
  | .ok b =>
  match getItem h dp "Complaints" with
  | .error e => .error e
  | .ok vc =>
  match pyIntOf vc with
  | .error e => .error e
  | .ok c =>
  match getItem h dp "DeliveryAttempts" with
  | .error e => .error e
  | .ok vd =>
  match pyIntOf vd with
  | .error e => .error e
  | .ok d =>
  match getItem h dp "Rejects" with
  | .error e => .error e
  | .ok vr =>
  match pyIntOf vr with
  | .error e => .error e
  | .ok r => .ok ⟨b, c, d, r⟩

/-- The four numeric field keys of a datapoint, in the order sum_stats reads
them. -/
def numFields : List String := ["Bounces", "Complaints", "DeliveryAttempts", "Rejects"]

/-- Nonempty all-digit string: the canonical form of a non-negative integer
field. -/
def isDigitStr (s : String) : Bool := !s.toList.isEmpty && s.toList.all isDigitCh

/-- All four numeric fields of the datapoint are nonempty digit strings. -/
def dpDigits (h : Heap) (dp : PyVal) : Bool :=
  numFields.all fun k =>
    match getItem h dp k with
    | .ok (.pstr s) => isDigitStr s
    | _ => false

/-- All four numeric fields of the datapoint are present string values. -/
def dpStrFields (h : Heap) (dp : PyVal) : Bool :=
  numFields.all fun k =>
    match getItem h dp k with
    | .ok (.pstr _) => true
    | _ => false

/-- Some numeric field of the datapoint is a string int() rejects. -/
def dpAnyBad (h : Heap) (dp : PyVal) : Bool :=
  numFields.any fun k =>
    match getItem h dp k with
    | .ok (.pstr s) => (pyIntParse s.toList).isNone
    | _ => false

/-- Atom values: the ones deepcopy returns unchanged (no references, no
lists). -/
def primV : PyVal → Bool
  | .pref _ => false
  | .plist _ => false
  | _ => true

/-- Dict body all of whose values are atoms (the allocated form of a
scalar-field datapoint object). -/
def primDict (d : SDict) : Bool :=
  d.all fun kv => primV kv.2

/-- Datapoint dict whose Timestamp is a parseable timestamp string. -/
def tsOK (d : SDict) : Bool :=
  match dGet d "Timestamp" with
  | some (.pstr s) => (parseTimestamp s).isSome
  | _ => false

/-- Datapoint dict whose Timestamp is a string strptime rejects. -/
def tsBad (d : SDict) : Bool :=
  match dGet d "Timestamp" with
  | some (.pstr s) => (parseTimestamp s).isNone
  | _ => false

/-- Datapoint dict that has a Timestamp key at all. -/
def hasTs (d : SDict) : Bool := (dGet d "Timestamp").isSome

/-- Timestamp value of a datapoint dict (the sort key the code extracts). -/
def tsOf (d : SDict) : PyVal := (dGet d "Timestamp").getD .pnone

/-- Decoded datapoint whose Timestamp string parses. -/
def dpTsParses (fs : List (String × JTree)) : Bool :=
  match fieldTs fs with
  | some s => (parseTimestamp s).isSome
  | none => false

/-- Decoded datapoint that has a string Timestamp field (parseable or not). -/
def dpTsStr (fs : List (String × JTree)) : Bool := (fieldTs fs).isSome

/-- Heap produced by allocating the canonical send-statistics response: one
cell per datapoint, then the result, the response and the top-level envelope
dicts. -/
def statsHeap (dps : List (List (String × JTree))) : Heap :=
  dps.map primMap ++
    [[("SendDataPoints", .plist (refRange 0 dps.length))],
     [("GetSendStatisticsResult", .pref dps.length)],
     [("GetSendStatisticsResponse", .pref (dps.length + 1))]]

/-- UTC instant carried by an aware-datetime value. -/
def dtUtcOf : PyVal → Option Int
  | .pdt d => some d.utc
  | _ => none

/-- First concrete datapoint object used in the theorems' witnesses: later
timestamp, all numeric fields digit strings. -/
def wDp1 : List (String × JTree) :=
  [("Timestamp", .jstr "2011-02-28T13:50:00Z"), ("Bounces", .jstr "3"),
   ("Complaints", .jstr "0"), ("DeliveryAttempts", .jstr "178"), ("Rejects", .jstr "0")]

/-- Second concrete datapoint object: earlier timestamp, so the input order
[wDp1, wDp2] is unsorted. -/
def wDp2 : List (String × JTree) :=
  [("Timestamp", .jstr "2011-02-28T13:35:00Z"), ("Bounces", .jstr "0"),
   ("Complaints", .jstr "2"), ("DeliveryAttempts", .jstr "7"), ("Rejects", .jstr "1")]

/-- Concrete two-datapoint list in reverse timestamp order. -/
def wDps : List (List (String × JTree)) := [wDp1, wDp2]

/-- Concrete fixed-offset timezone (UTC-5, 18000 seconds west). -/
def wTz : PyTZ := ⟨fun _ => -18000⟩

/-- Concrete datapoint whose Timestamp string strptime rejects. -/
def wBad : List (String × JTree) := [("Timestamp", .jstr "not-a-date")]

/-- C1 counterexample: the payload with notificationType "Complaint" is a JSON
object whose notificationType is a value other than "Bounce", yet handle_bounce
succeeds with a 200 response and emits a complaint event, instead of failing
with UnrecognizedNotificationType (a client-error response) and emitting
nothing as the claim states. -/
theorem C1_counterexample :
    (handle_bounce (some (.jobj [("notificationType", .jstr "Complaint")]))).resp
        = .ok .httpOk ∧
    (handle_bounce (some (.jobj [("notificationType", .jstr "Complaint")]))).events
        = [.complaint .jnull (.jobj [])] ∧
    HttpResp.httpOk ≠ HttpResp.badRequest :=
  ⟨rfl, rfl, by decide⟩

/-- C1 (amended): for every call of the webhook classifier, if the raw body is
not valid JSON it fails with MalformedPayload (a client-error response, here a
400 with the bad-JSON warning log) and emits no event; if the payload is a JSON
object whose notificationType is "Bounce" (and whose bounce field, if present,
is an object) it succeeds and emits exactly one BounceEvent carrying the
payload's mail object and its bounce details (feedbackId included); if the
payload is a JSON object whose notificationType is any value other than
"Bounce" or "Complaint" (including absent) it fails with
UnrecognizedNotificationType (a 400 with the invalid-type warning log) and
emits nothing. -/
theorem C1_handle_bounce_classification (p : Option JTree) :
    (p = none → handle_bounce p = ⟨[], [.warnBadJson], .ok .badRequest⟩) ∧
    (∀ fs bfs, p = some (.jobj fs) →
        (lookupF fs "notificationType").getD .jnull = .jstr "Bounce" →
        (lookupF fs "bounce").getD (.jobj []) = .jobj bfs →
        handle_bounce p =
          ⟨[.bounce ((lookupF fs "mail").getD .jnull) (.jobj bfs)],
           [.infoBounce ((lookupF bfs "feedbackId").getD .jnull)
              ((lookupF bfs "bounceType").getD .jnull)
              ((lookupF bfs "bounceSubType").getD .jnull)],
           .ok .httpOk⟩) ∧
    (∀ fs, p = some (.jobj fs) →
        (lookupF fs "notificationType").getD .jnull ≠ .jstr "Bounce" →
        (lookupF fs "notificationType").getD .jnull ≠ .jstr "Complaint" →
        handle_bounce p =
          ⟨[], [.warnInvalidType ((lookupF fs "notificationType").getD .jnull)],
           .ok .badRequest⟩) := by
  refine ⟨fun hp => by subst hp; rfl, ?_, ?_⟩
  · rintro fs bfs rfl hnt hb
    simp only [handle_bounce, jGet, jGetD, hnt, hb]
  · rintro fs rfl hnt hnc
    simp only [handle_bounce, jGet, jGetD]

/-- C1 witness: the three branches of the amended classification theorem at the
spec's own concrete examples (a bad JSON body, the Bounce payload with mail
object and feedbackId f1, and a payload with notificationType "Other"). -/
theorem C1_witness :
    handle_bounce none = ⟨[], [.warnBadJson], .ok .badRequest⟩ ∧
    handle_bounce (some (.jobj [("notificationType", .jstr "Bounce"),
        ("mail", .jobj [("m", .jint 1)]),
        ("bounce", .jobj [("feedbackId", .jstr "f1"), ("bounceType", .jstr "Permanent"),
          ("bounceSubType", .jstr "General")])])) =
      ⟨[.bounce (.jobj [("m", .jint 1)])
          (.jobj [("feedbackId", .jstr "f1"), ("bounceType", .jstr "Permanent"),
            ("bounceSubType", .jstr "General")])],
       [.infoBounce (.jstr "f1") (.jstr "Permanent") (.jstr "General")], .ok .httpOk⟩ ∧
    handle_bounce (some (.jobj [("notificationType", .jstr "Other")])) =
      ⟨[], [.warnInvalidType (.jstr "Other")], .ok .badRequest⟩ := by
  refine ⟨(C1_handle_bounce_classification none).1 rfl, ?_, ?_⟩
  · exact (C1_handle_bounce_classification _).2.1 _ _ rfl rfl rfl
  · exact (C1_handle_bounce_classification _).2.2 _ rfl (by simp [lookupF]) (by simp [lookupF])

/-- C2 counterexample: for the accepted Bounce payload with no mail key,
classification succeeds but the emitted event carries null (Python None) as its
mail object, not an empty mapping as the claim states for every missing
sub-object. -/
theorem C2_counterexample :
    (handle_bounce (some (.jobj [("notificationType", .jstr "Bounce")]))).events
      = [.bounce .jnull (.jobj [])] ∧
    JTree.jnull ≠ JTree.jobj [] :=
  ⟨rfl, by intro h; exact JTree.noConfusion h⟩

/-- C2 (amended): for every Bounce or Complaint JSON-object payload accepted by
the webhook classifier, a missing bounce or complaint sub-object is not an
error: classification succeeds and the missing detail object is passed to the
emitted event as an empty mapping; a missing mail sub-object is also not an
error, but it is passed to the event as null (Python None), not as an empty
mapping. -/
theorem C2_missing_subobjects (p : Option JTree) :
    (∀ fs, p = some (.jobj fs) →
        (lookupF fs "notificationType").getD .jnull = .jstr "Bounce" →
        lookupF fs "bounce" = none →
        handle_bounce p =
          ⟨[.bounce ((lookupF fs "mail").getD .jnull) (.jobj [])],
           [.infoBounce .jnull .jnull .jnull], .ok .httpOk⟩) ∧
    (∀ fs, p = some (.jobj fs) →
        (lookupF fs "notificationType").getD .jnull = .jstr "Complaint" →
        lookupF fs "complaint" = none →
        handle_bounce p =
          ⟨[.complaint ((lookupF fs "mail").getD .jnull) (.jobj [])],
           [.infoComplaint .jnull .jnull], .ok .httpOk⟩) ∧
    (∀ fs bfs, p = some (.jobj fs) →
        (lookupF fs "notificationType").getD .jnull = .jstr "Bounce" →
        lookupF fs "mail" = none →
        (lookupF fs "bounce").getD (.jobj []) = .jobj bfs →
        handle_bounce p =
          ⟨[.bounce .jnull (.jobj bfs)],
           [.infoBounce ((lookupF bfs "feedbackId").getD .jnull)
              ((lookupF bfs "bounceType").getD .jnull)
              ((lookupF bfs "bounceSubType").getD .jnull)],
           .ok .httpOk⟩) := by
  refine ⟨?_, ?_, ?_⟩
  · rintro fs rfl hnt hb
    simp only [handle_bounce, jGet, jGetD, hnt, hb, Option.getD_none]
    rfl
  · rintro fs rfl hnt hc
    simp only [handle_bounce, jGet, jGetD, hnt, hc, Option.getD_none]
    rfl
  · rintro fs bfs rfl hnt hm hb
    simp only [handle_bounce, jGet, jGetD, hnt, hm, hb, Option.getD_none]

/-- C2 witness: the three conjuncts at concrete payloads, including the spec's
example of a Complaint payload missing the complaint key. -/
theorem C2_witness :
    handle_bounce (some (.jobj [("notificationType", .jstr "Bounce"),
        ("mail", .jobj [("m", .jint 1)])])) =
      ⟨[.bounce (.jobj [("m", .jint 1)]) (.jobj [])],
       [.infoBounce .jnull .jnull .jnull], .ok .httpOk⟩ ∧
    handle_bounce (some (.jobj [("notificationType", .jstr "Complaint"),
        ("mail", .jobj [("m", .jint 2)])])) =
      ⟨[.complaint (.jobj [("m", .jint 2)]) (.jobj [])],
       [.infoComplaint .jnull .jnull], .ok .httpOk⟩ ∧
    handle_bounce (some (.jobj [("notificationType", .jstr "Bounce"),
        ("bounce", .jobj [("feedbackId", .jstr "f9")])])) =
      ⟨[.bounce .jnull (.jobj [("feedbackId", .jstr "f9")])],
       [.infoBounce (.jstr "f9") .jnull .jnull], .ok .httpOk⟩ := by
  refine ⟨?_, ?_, ?_⟩
  · exact (C2_missing_subobjects _).1 _ rfl rfl rfl
  · exact (C2_missing_subobjects _).2.1 _ rfl rfl rfl
  · exact (C2_missing_subobjects _).2.2 _ _ rfl rfl rfl rfl

theorem strLe_trans : ∀ a b c, strLe a b = true → strLe b c = true → strLe a c = true
  | [], _, _, _, _ => by simp [strLe]
  | x :: xs, [], c, h1, _ => by simp [strLe] at h1
  | x :: xs, y :: ys, [], _, h2 => by simp [strLe] at h2
  | x :: xs, y :: ys, z :: zs, h1, h2 => by
    simp only [strLe] at h1 h2 ⊢
    split_ifs at h1 h2 ⊢ <;>
      first
        | rfl
        | omega
        | exact strLe_trans xs ys zs h1 h2

theorem strLe_total : ∀ a b, strLe a b = true ∨ strLe b a = true
  | [], _ => by simp [strLe]
  | x :: xs, [] => by simp [strLe]
  | x :: xs, y :: ys => by
    simp only [strLe]
    split_ifs <;>
      first
        | simp
        | omega
        | exact strLe_total xs ys

theorem pyKeyLE_trans (a b c : PyVal) (h1 : pyKeyLE a b = true) (h2 : pyKeyLE b c = true) :
    pyKeyLE a c = true := by
  simp only [pyKeyLE] at h1 h2 ⊢
  split_ifs at h1 h2 ⊢ <;>
    first
      | rfl
      | omega
      | exact strLe_trans _ _ _ h1 h2

theorem pyKeyLE_total (a b : PyVal) : pyKeyLE a b = true ∨ pyKeyLE b a = true := by
  simp only [pyKeyLE]
  split_ifs <;>
    first
      | simp
      | omega
      | exact strLe_total _ _

theorem asStrings_map (ss : List String) : asStrings (ss.map JTree.jstr) = some ss := by
  induction ss with
  | nil => rfl
  | cons s rest ih => simp [asStrings, ih]

/-- C8: emails_parse of a well-formed verified-email-list response returns the
email strings sorted lexicographically (by code point), and the sorted output
is a permutation of the decoded input list, so duplicates are preserved. -/
theorem C8_emails_parse_sorted (t t1 t2 : JTree) (ss : List String)
    (h0 : jGetItem t "ListVerifiedEmailAddressesResponse" = .ok t1)
    (h1 : jGetItem t1 "ListVerifiedEmailAddressesResult" = .ok t2)
    (h2 : jGetItem t2 "VerifiedEmailAddresses" = .ok (.jarr (ss.map .jstr))) :
    ∃ out, emails_parse t = .ok (out.map .jstr) ∧
      out.Perm ss ∧ List.Sorted strRel out := by
  refine ⟨List.insertionSort strRel ss, ?_, ?_, ?_⟩
  · simp only [emails_parse, h0, h1, h2, asStrings_map]
  · exact List.perm_insertionSort strRel ss
  · haveI : IsTotal String strRel := ⟨fun a b => pyKeyLE_total (.pstr a) (.pstr b) |>.imp id id⟩
    haveI : IsTrans String strRel := ⟨fun a b c => strLe_trans a.toList b.toList c.toList⟩
    exact List.sorted_insertionSort strRel ss

/-- C8 witness: the spec's example response sorts ["b@x", "a@x"] into
["a@x", "b@x"]. -/
theorem C8_witness :
    ∃ out, emails_parse (.jobj [("ListVerifiedEmailAddressesResponse",
        .jobj [("ListVerifiedEmailAddressesResult",
          .jobj [("VerifiedEmailAddresses", .jarr [.jstr "b@x", .jstr "a@x"])])])])
      = .ok (out.map .jstr) ∧ out.Perm ["b@x", "a@x"] ∧ List.Sorted strRel out :=
  C8_emails_parse_sorted _ _ _ ["b@x", "a@x"] rfl rfl rfl

theorem sumLoop_cons (h : Heap) (dp : PyVal) (rest : List PyVal) (tb tc td tr : Int) :
    sumLoop h (dp :: rest) tb tc td tr =
      match dpSummary h dp with
      | .error e => .error e
      | .ok s => sumLoop h rest (tb + s.bounces) (tc + s.complaints)
          (td + s.deliveryAttempts) (tr + s.rejects) := by
  cases hvb : getItem h dp "Bounces" with
  | error e => simp [sumLoop, dpSummary, hvb]
  | ok vb =>
  cases hb : pyIntOf vb with
  | error e => simp [sumLoop, dpSummary, hvb, hb]
  | ok b =>
  cases hvc : getItem h dp "Complaints" with
  | error e => simp [sumLoop, dpSummary, hvb, hb, hvc]
  | ok vc =>
  cases hc : pyIntOf vc with
  | error e => simp [sumLoop, dpSummary, hvb, hb, hvc, hc]
  | ok c =>
  cases hvd : getItem h dp "DeliveryAttempts" with
  | error e => simp [sumLoop, dpSummary, hvb, hb, hvc, hc, hvd]
  | ok vd =>
  cases hd : pyIntOf vd with
  | error e => simp [sumLoop, dpSummary, hvb, hb, hvc, hc, hvd, hd]
  | ok d =>
  cases hvr : getItem h dp "Rejects" with
  | error e => simp [sumLoop, dpSummary, hvb, hb, hvc, hc, hvd, hd, hvr]
  | ok vr =>
  cases hr : pyIntOf vr with
  | error e => simp [sumLoop, dpSummary, hvb, hb, hvc, hc, hvd, hd, hvr, hr]
  | ok r => simp [sumLoop, dpSummary, hvb, hb, hvc, hc, hvd, hd, hvr, hr]

theorem sumLoop_shift (h : Heap) : ∀ (l : List PyVal) (tb tc td tr : Int),
    sumLoop h l tb tc td tr
      = (sumLoop h l 0 0 0 0).map fun s =>
          ⟨tb + s.bounces, tc + s.complaints, td + s.deliveryAttempts, tr + s.rejects⟩
  | [], tb, tc, td, tr => by simp [sumLoop, Except.map]
  | dp :: rest, tb, tc, td, tr => by
    rw [sumLoop_cons, sumLoop_cons]
    cases hds : dpSummary h dp with
    | error e => simp [Except.map]
    | ok s =>
      simp only
      rw [sumLoop_shift h rest (tb + s.bounces) (tc + s.complaints)
            (td + s.deliveryAttempts) (tr + s.rejects),
          sumLoop_shift h rest (0 + s.bounces) (0 + s.complaints)
            (0 + s.deliveryAttempts) (0 + s.rejects)]
      cases hbase : sumLoop h rest 0 0 0 0 with
      | error e => simp [Except.map]
      | ok s2 =>
        simp only [Except.map, Except.ok.injEq, StatsSummary.mk.injEq]
        refine ⟨by omega, by omega, by omega, by omega⟩

/-- C7: summarization is a monoid homomorphism from datapoint-sequence
concatenation to field-wise addition: the empty sequence yields the all-zero
summary, and whenever both halves summarize successfully the concatenation
summarizes to the field-wise sum. -/
theorem C7_sum_stats_hom (h : Heap) :
    sum_stats h [] = .ok ⟨0, 0, 0, 0⟩ ∧
    ∀ a b sa sb, sum_stats h a = .ok sa → sum_stats h b = .ok sb →
      sum_stats h (a ++ b) = .ok (sa.add sb) := by
  refine ⟨rfl, ?_⟩
  intro a
  induction a with
  | nil =>
    intro b sa sb ha hb
    simp only [sum_stats, sumLoop] at ha
    cases ha
    simpa [sum_stats, StatsSummary.add] using hb
  | cons dp a' ih =>
    intro b sa sb ha hb
    simp only [sum_stats, List.cons_append] at ha ⊢
    rw [sumLoop_cons] at ha ⊢
    cases hds : dpSummary h dp with
    | error e => rw [hds] at ha; cases ha
    | ok s =>
      rw [hds] at ha
      simp only at ha ⊢
      rw [sumLoop_shift] at ha
      cases hbase : sumLoop h a' 0 0 0 0 with
      | error e => rw [hbase] at ha; cases ha
      | ok s' =>
        rw [hbase] at ha
        simp only [Except.map] at ha
        cases ha
        have hrec := ih b s' sb hbase hb
        simp only [sum_stats] at hrec
        rw [sumLoop_shift, hrec]
        simp only [Except.map, Except.ok.injEq, StatsSummary.mk.injEq, StatsSummary.add]
        refine ⟨by omega, by omega, by omega, by omega⟩

theorem str_toList_data (s : String) : s.toList = s.data := rfl

theorem digit_not_space (c : Char) (hc : isDigitCh c = true) : isPySpace c = false := by
  simp only [isDigitCh, Bool.and_eq_true, decide_eq_true_eq] at hc
  simp only [isPySpace, Bool.or_eq_false_iff, beq_eq_false_iff_ne, ne_eq]
  omega

theorem stripWs_digits (cs : List Char) (hc : ∀ c ∈ cs, isDigitCh c = true) :
    stripWs cs = cs := by
  have hfront : ∀ ds : List Char, (∀ c ∈ ds, isDigitCh c = true) →
      ds.dropWhile isPySpace = ds := by
    intro ds hds
    cases ds with
    | nil => rfl
    | cons a l =>
      rw [List.dropWhile_cons]
      simp [digit_not_space a (hds a (List.mem_cons_self a l))]
  unfold stripWs
  rw [hfront cs hc, hfront cs.reverse (by intro c hcm; exact hc c (List.mem_reverse.mp hcm)),
    List.reverse_reverse]

theorem digitsToInt_nonneg (ds : List Char) : 0 ≤ digitsToInt ds := by
  have : ∀ (l : List Char) (acc : Int), 0 ≤ acc →
      0 ≤ l.foldl (fun n c => 10 * n + (digitVal c : Int)) acc := by
    intro l
    induction l with
    | nil => intro acc h; simpa using h
    | cons c l ih =>
      intro acc h
      simp only [List.foldl_cons]
      exact ih _ (by positivity)
  exact this ds 0 le_rfl

theorem pyIntParse_digits (s : String) (hd : isDigitStr s = true) :
    ∃ n, pyIntParse s.toList = some n ∧ 0 ≤ n := by
  simp only [isDigitStr, Bool.and_eq_true, Bool.not_eq_eq_eq_not, Bool.not_false,
    List.all_eq_true] at hd
  obtain ⟨hne, hall⟩ := hd
  refine ⟨digitsToInt s.toList, ?_, digitsToInt_nonneg _⟩
  rw [pyIntParse, stripWs_digits _ hall]
  cases hcs : s.toList with
  | nil => rw [hcs] at hne; simp at hne
  | cons c ds =>
    have hcdig : isDigitCh c = true := hall c (by rw [hcs]; exact List.mem_cons_self c ds)
    have hcv : 48 ≤ c.val.toNat ∧ c.val.toNat ≤ 57 := by
      simpa [isDigitCh, Bool.and_eq_true, decide_eq_true_eq] using hcdig
    have h43 : (c.val.toNat == 43) = false := by simp only [beq_eq_false_iff_ne, ne_eq]; omega
    have h45 : (c.val.toNat == 45) = false := by simp only [beq_eq_false_iff_ne, ne_eq]; omega
    have hcall : (c :: ds).all isDigitCh = true := by
      rw [← hcs]; exact List.all_eq_true.mpr hall
    simp [h43, h45, hcall, hcs]

theorem field_digit_extract (h : Heap) (dp : PyVal) (k : String)
    (hf : (match getItem h dp k with
           | .ok (.pstr s) => isDigitStr s
           | _ => false) = true) :
    ∃ s n, getItem h dp k = .ok (.pstr s) ∧ pyIntParse s.toList = some n ∧ 0 ≤ n := by
  cases hv : getItem h dp k with
  | error e => rw [hv] at hf; simp at hf
  | ok v =>
    rw [hv] at hf
    cases v <;> simp at hf
    case pstr s =>
      obtain ⟨n, hp, hn⟩ := pyIntParse_digits s hf
      exact ⟨s, n, rfl, hp, hn⟩

theorem field_str_extract (h : Heap) (dp : PyVal) (k : String)
    (hf : (match getItem h dp k with
           | .ok (.pstr _) => true
           | _ => false) = true) :
    ∃ s, getItem h dp k = .ok (.pstr s) := by
  cases hv : getItem h dp k with
  | error e => rw [hv] at hf; simp at hf
  | ok v =>
    rw [hv] at hf
    cases v <;> simp at hf
    case pstr s => exact ⟨s, rfl⟩

theorem dpSummary_digits (h : Heap) (dp : PyVal) (hd : dpDigits h dp = true) :
    ∃ s, dpSummary h dp = .ok s ∧ 0 ≤ s.bounces ∧ 0 ≤ s.complaints ∧
      0 ≤ s.deliveryAttempts ∧ 0 ≤ s.rejects := by
  simp only [dpDigits, numFields, List.all_cons, List.all_nil, Bool.and_true,
    Bool.and_eq_true] at hd
  obtain ⟨h1, h2, h3, h4⟩ := hd
  obtain ⟨s1, n1, hv1, hp1, hn1⟩ := field_digit_extract h dp "Bounces" h1
  obtain ⟨s2, n2, hv2, hp2, hn2⟩ := field_digit_extract h dp "Complaints" h2
  obtain ⟨s3, n3, hv3, hp3, hn3⟩ := field_digit_extract h dp "DeliveryAttempts" h3
  obtain ⟨s4, n4, hv4, hp4, hn4⟩ := field_digit_extract h dp "Rejects" h4
  refine ⟨⟨n1, n2, n3, n4⟩, ?_, hn1, hn2, hn3, hn4⟩
  simp only [str_toList_data] at hp1 hp2 hp3 hp4
  simp [dpSummary, hv1, hv2, hv3, hv4, pyIntOf, hp1, hp2, hp3, hp4, str_toList_data]

theorem dpSummary_str_cases (h : Heap) (dp : PyVal) (hstr : dpStrFields h dp = true) :
    dpSummary h dp = .error .valueError ∨ ∃ s, dpSummary h dp = .ok s := by
  simp only [dpStrFields, numFields, List.all_cons, List.all_nil, Bool.and_true,
    Bool.and_eq_true] at hstr
  obtain ⟨h1, h2, h3, h4⟩ := hstr
  obtain ⟨s1, hv1⟩ := field_str_extract h dp "Bounces" h1
  obtain ⟨s2, hv2⟩ := field_str_extract h dp "Complaints" h2
  obtain ⟨s3, hv3⟩ := field_str_extract h dp "DeliveryAttempts" h3
  obtain ⟨s4, hv4⟩ := field_str_extract h dp "Rejects" h4
  cases hp1 : pyIntParse s1.data with
  | none => left; simp [dpSummary, hv1, pyIntOf, hp1]
  | some n1 =>
  cases hp2 : pyIntParse s2.data with
  | none => left; simp [dpSummary, hv1, hv2, pyIntOf, hp1, hp2]
  | some n2 =>
  cases hp3 : pyIntParse s3.data with
  | none => left; simp [dpSummary, hv1, hv2, hv3, pyIntOf, hp1, hp2, hp3]
  | some n3 =>
  cases hp4 : pyIntParse s4.data with
  | none => left; simp [dpSummary, hv1, hv2, hv3, hv4, pyIntOf, hp1, hp2, hp3, hp4]
  | some n4 =>
    right
    exact ⟨⟨n1, n2, n3, n4⟩, by simp [dpSummary, hv1, hv2, hv3, hv4, pyIntOf, hp1, hp2, hp3, hp4]⟩

theorem dpSummary_bad (h : Heap) (dp : PyVal) (hstr : dpStrFields h dp = true)
    (hbad : dpAnyBad h dp = true) : dpSummary h dp = .error .valueError := by
  simp only [dpStrFields, numFields, List.all_cons, List.all_nil, Bool.and_true,
    Bool.and_eq_true] at hstr
  obtain ⟨h1, h2, h3, h4⟩ := hstr
  obtain ⟨s1, hv1⟩ := field_str_extract h dp "Bounces" h1
  obtain ⟨s2, hv2⟩ := field_str_extract h dp "Complaints" h2
  obtain ⟨s3, hv3⟩ := field_str_extract h dp "DeliveryAttempts" h3
  obtain ⟨s4, hv4⟩ := field_str_extract h dp "Rejects" h4
  simp only [dpAnyBad, numFields, List.any_cons, List.any_nil, Bool.or_false,
    Bool.or_eq_true, hv1, hv2, hv3, hv4, str_toList_data] at hbad
  cases hp1 : pyIntParse s1.data with
  | none => simp [dpSummary, hv1, pyIntOf, hp1]
  | some n1 =>
  cases hp2 : pyIntParse s2.data with
  | none => simp [dpSummary, hv1, hv2, pyIntOf, hp1, hp2]
  | some n2 =>
  cases hp3 : pyIntParse s3.data with
  | none => simp [dpSummary, hv1, hv2, hv3, pyIntOf, hp1, hp2, hp3]
  | some n3 =>
  cases hp4 : pyIntParse s4.data with
  | none => simp [dpSummary, hv1, hv2, hv3, hv4, pyIntOf, hp1, hp2, hp3, hp4]
  | some n4 =>
    rw [hp1, hp2, hp3, hp4] at hbad
    simp at hbad

/-- C9: when the four numeric fields of every datapoint are non-negative
integer strings, summarization succeeds with a summary whose fields are all
non-negative; when the fields are strings and any one of them is not numeric,
summarization fails whole with ParseError (ValueError), yielding no partial
result. -/
theorem C9_sum_stats_invariants (h : Heap) (dps : List PyVal) :
    ((∀ dp ∈ dps, dpDigits h dp = true) →
      ∃ st, sum_stats h dps = .ok st ∧ 0 ≤ st.bounces ∧ 0 ≤ st.complaints ∧
        0 ≤ st.deliveryAttempts ∧ 0 ≤ st.rejects) ∧
    ((∀ dp ∈ dps, dpStrFields h dp = true) →
      (∃ dp ∈ dps, dpAnyBad h dp = true) →
      sum_stats h dps = .error .valueError) := by
  constructor
  · induction dps with
    | nil => intro _; exact ⟨⟨0, 0, 0, 0⟩, rfl, le_rfl, le_rfl, le_rfl, le_rfl⟩
    | cons dp rest ih =>
      intro hall
      obtain ⟨s, hds, hb, hc, hd2, hr⟩ :=
        dpSummary_digits h dp (hall dp (List.mem_cons_self dp rest))
      obtain ⟨st', hst', hb', hc', hd', hr'⟩ :=
        ih fun dp2 hm => hall dp2 (List.mem_cons_of_mem dp hm)
      refine ⟨⟨s.bounces + st'.bounces, s.complaints + st'.complaints,
        s.deliveryAttempts + st'.deliveryAttempts, s.rejects + st'.rejects⟩, ?_,
        by show (0:Int) ≤ s.bounces + st'.bounces; omega,
        by show (0:Int) ≤ s.complaints + st'.complaints; omega,
        by show (0:Int) ≤ s.deliveryAttempts + st'.deliveryAttempts; omega,
        by show (0:Int) ≤ s.rejects + st'.rejects; omega⟩
      simp only [sum_stats] at hst' ⊢
      rw [sumLoop_cons, hds]
      simp only
      rw [sumLoop_shift, hst']
      simp only [Except.map, Except.ok.injEq, StatsSummary.mk.injEq]
      refine ⟨by omega, by omega, by omega, by omega⟩
  · induction dps with
    | nil => rintro _ ⟨dp, hm, _⟩; cases hm
    | cons dp rest ih =>
      intro hall hbad
      obtain ⟨dpb, hmb, hdpb⟩ := hbad
      rcases List.mem_cons.mp hmb with rfl | hmb'
      · have hds := dpSummary_bad h dpb (hall dpb (List.mem_cons_self dpb rest)) hdpb
        simp only [sum_stats]
        rw [sumLoop_cons, hds]
      · rcases dpSummary_str_cases h dp (hall dp (List.mem_cons_self dp rest)) with hds | ⟨s, hds⟩
        · simp only [sum_stats]
          rw [sumLoop_cons, hds]
        · have hrec := ih (fun dp2 hm => hall dp2 (List.mem_cons_of_mem dp hm))
            ⟨dpb, hmb', hdpb⟩
          simp only [sum_stats] at hrec ⊢
          rw [sumLoop_cons, hds]
          simp only
          rw [sumLoop_shift, hrec]
          simp [Except.map]

/-- C7 witness: the homomorphism law at a concrete two-datapoint heap,
1+10 bounces, 2+0 complaints, 3+20 delivery attempts, 4+5 rejects. -/
theorem C7_witness :
    sum_stats [[("Bounces", .pstr "1"), ("Complaints", .pstr "2"),
        ("DeliveryAttempts", .pstr "3"), ("Rejects", .pstr "4")],
       [("Bounces", .pstr "10"), ("Complaints", .pstr "0"),
        ("DeliveryAttempts", .pstr "20"), ("Rejects", .pstr "5")]] [] = .ok ⟨0, 0, 0, 0⟩ ∧
    sum_stats [[("Bounces", .pstr "1"), ("Complaints", .pstr "2"),
        ("DeliveryAttempts", .pstr "3"), ("Rejects", .pstr "4")],
       [("Bounces", .pstr "10"), ("Complaints", .pstr "0"),
        ("DeliveryAttempts", .pstr "20"), ("Rejects", .pstr "5")]]
      ([.pref 0] ++ [.pref 1])
      = .ok (StatsSummary.add ⟨1, 2, 3, 4⟩ ⟨10, 0, 20, 5⟩) :=
  ⟨(C7_sum_stats_hom _).1,
   (C7_sum_stats_hom _).2 [.pref 0] [.pref 1] ⟨1, 2, 3, 4⟩ ⟨10, 0, 20, 5⟩ rfl rfl⟩

/-- C9 witness: non-negativity on a heap of digit-string datapoints, and the
whole-summarization ParseError on a heap whose third datapoint has the
non-numeric Bounces value "x". -/
theorem C9_witness :
    (∃ st, sum_stats [[("Bounces", .pstr "1"), ("Complaints", .pstr "2"),
          ("DeliveryAttempts", .pstr "3"), ("Rejects", .pstr "4")],
         [("Bounces", .pstr "10"), ("Complaints", .pstr "0"),
          ("DeliveryAttempts", .pstr "20"), ("Rejects", .pstr "5")],
         [("Bounces", .pstr "x"), ("Complaints", .pstr "1"),
          ("DeliveryAttempts", .pstr "1"), ("Rejects", .pstr "1")]]
        [.pref 0, .pref 1] = .ok st ∧
      0 ≤ st.bounces ∧ 0 ≤ st.complaints ∧ 0 ≤ st.deliveryAttempts ∧ 0 ≤ st.rejects) ∧
    sum_stats [[("Bounces", .pstr "1"), ("Complaints", .pstr "2"),
          ("DeliveryAttempts", .pstr "3"), ("Rejects", .pstr "4")],
         [("Bounces", .pstr "10"), ("Complaints", .pstr "0"),
          ("DeliveryAttempts", .pstr "20"), ("Rejects", .pstr "5")],
         [("Bounces", .pstr "x"), ("Complaints", .pstr "1"),
          ("DeliveryAttempts", .pstr "1"), ("Rejects", .pstr "1")]]
        [.pref 0, .pref 2] = .error .valueError :=
  ⟨(C9_sum_stats_invariants _ _).1 (by decide),
   (C9_sum_stats_invariants _ _).2 (by decide) ⟨.pref 2, by simp, rfl⟩⟩

theorem listRefsGE_iff (n : Nat) : ∀ l : List PyVal,
    listRefsGE n l = true ↔ ∀ v ∈ l, valRefsGE n v = true
  | [] => by simp [listRefsGE]
  | v :: vs => by
    simp [listRefsGE, Bool.and_eq_true, listRefsGE_iff n vs]

mutual
theorem valRefsGE_mono {n m : Nat} (hnm : n ≤ m) :
    ∀ v, valRefsGE m v = true → valRefsGE n v = true
  | .pnone, _ => rfl
  | .pbool _, _ => rfl
  | .pint _, _ => rfl
  | .pstr _, _ => rfl
  | .pdt _, _ => rfl
  | .pref r, hv => by
    simp only [valRefsGE, decide_eq_true_eq] at hv ⊢
    omega
  | .plist l, hv => by
    simp only [valRefsGE] at hv ⊢
    exact listRefsGE_mono hnm l hv

theorem listRefsGE_mono {n m : Nat} (hnm : n ≤ m) :
    ∀ l, listRefsGE m l = true → listRefsGE n l = true
  | [], _ => rfl
  | v :: vs, hl => by
    simp only [listRefsGE, Bool.and_eq_true] at hl ⊢
    exact ⟨valRefsGE_mono hnm v hl.1, listRefsGE_mono hnm vs hl.2⟩
end

theorem dictRefsGE_mono {n m : Nat} (hnm : n ≤ m) (d : SDict)
    (hd : dictRefsGE m d = true) : dictRefsGE n d = true := by
  simp only [dictRefsGE, List.all_eq_true] at hd ⊢
  exact fun kv hkv => valRefsGE_mono hnm kv.2 (hd kv hkv)

theorem dGet_valRefsGE {n : Nat} {d : SDict} (hd : dictRefsGE n d = true)
    {k : String} {x : PyVal} (hx : dGet d k = some x) : valRefsGE n x = true := by
  induction d with
  | nil => cases hx
  | cons kv rest ih =>
    simp only [dictRefsGE, List.all_cons, Bool.and_eq_true] at hd
    rw [dGet] at hx
    by_cases hk : kv.1 = k
    · rw [if_pos hk] at hx
      cases hx
      exact hd.1
    · rw [if_neg hk] at hx
      exact ih (by simpa [dictRefsGE] using hd.2) hx

theorem dcVal_fresh : ∀ (fuel : Nat) (h : Heap) (v : PyVal) (h2 : Heap) (v2 : PyVal),
    dcVal fuel h v = some (h2, v2) →
    (∃ e, h2 = h ++ e) ∧ valRefsGE h.length v2 = true ∧
      ∀ d ∈ h2.drop h.length, dictRefsGE h.length d = true := by
  intro fuel
  induction fuel with
  | zero => intro h v h2 v2 hdc; cases hdc
  | succ fuel ih =>
    have auxL : ∀ (l : List PyVal) (h : Heap) (h2 : Heap) (l2 : List PyVal),
        dcListH (dcVal fuel) h l = some (h2, l2) →
        (∃ e, h2 = h ++ e) ∧ listRefsGE h.length l2 = true ∧
          ∀ d ∈ h2.drop h.length, dictRefsGE h.length d = true := by
      intro l
      induction l with
      | nil =>
        intro h h2 l2 hdc
        cases hdc
        exact ⟨⟨[], by simp⟩, rfl, by simp⟩
      | cons v vs ihl =>
        intro h h2 l2 hdc
        rw [dcListH] at hdc
        cases hf : dcVal fuel h v with
        | none => rw [hf] at hdc; cases hdc
        | some p =>
          obtain ⟨h1, v1⟩ := p
          rw [hf] at hdc
          simp only at hdc
          cases hrest : dcListH (dcVal fuel) h1 vs with
          | none => rw [hrest] at hdc; cases hdc
          | some q =>
            obtain ⟨hq, lq⟩ := q
            rw [hrest] at hdc
            simp only [Option.some.injEq, Prod.mk.injEq] at hdc
            obtain ⟨rfl, rfl⟩ := hdc
            obtain ⟨⟨e1, rfl⟩, hv1, hc1⟩ := ih h v h1 v1 hf
            obtain ⟨⟨e2, rfl⟩, hvs, hc2⟩ := ihl (h ++ e1) hq lq hrest
            have hlen : h.length ≤ (h ++ e1).length := by simp
            refine ⟨⟨e1 ++ e2, by simp⟩, ?_, ?_⟩
            · simp only [listRefsGE, Bool.and_eq_true]
              exact ⟨hv1, listRefsGE_mono hlen lq hvs⟩
            · intro d hd
              rw [List.append_assoc, List.drop_left] at hd
              rcases List.mem_append.mp hd with hd1 | hd2
              · exact hc1 d (by rw [List.drop_left]; exact hd1)
              · exact dictRefsGE_mono hlen d (hc2 d (by rw [List.drop_left]; exact hd2))
    have auxF : ∀ (l : SDict) (h : Heap) (h2 : Heap) (l2 : SDict),
        dcFieldsH (dcVal fuel) h l = some (h2, l2) →
        (∃ e, h2 = h ++ e) ∧ dictRefsGE h.length l2 = true ∧
          ∀ d ∈ h2.drop h.length, dictRefsGE h.length d = true := by
      intro l
      induction l with
      | nil =>
        intro h h2 l2 hdc
        cases hdc
        exact ⟨⟨[], by simp⟩, rfl, by simp⟩
      | cons kv fs ihl =>
        intro h h2 l2 hdc
        rw [dcFieldsH] at hdc
        cases hf : dcVal fuel h kv.2 with
        | none => rw [hf] at hdc; cases hdc
        | some p =>
          obtain ⟨h1, v1⟩ := p
          rw [hf] at hdc
          simp only at hdc
          cases hrest : dcFieldsH (dcVal fuel) h1 fs with
          | none => rw [hrest] at hdc; cases hdc
          | some q =>
            obtain ⟨hq, lq⟩ := q
            rw [hrest] at hdc
            simp only [Option.some.injEq, Prod.mk.injEq] at hdc
            obtain ⟨rfl, rfl⟩ := hdc
            obtain ⟨⟨e1, rfl⟩, hv1, hc1⟩ := ih h kv.2 h1 v1 hf
            obtain ⟨⟨e2, rfl⟩, hfs, hc2⟩ := ihl (h ++ e1) hq lq hrest
            have hlen : h.length ≤ (h ++ e1).length := by simp
            refine ⟨⟨e1 ++ e2, by simp⟩, ?_, ?_⟩
            · simp only [dictRefsGE, List.all_cons, Bool.and_eq_true]
              exact ⟨hv1, by
                have := dictRefsGE_mono hlen lq hfs
                simpa [dictRefsGE] using this⟩
            · intro d hd
              rw [List.append_assoc, List.drop_left] at hd
              rcases List.mem_append.mp hd with hd1 | hd2
              · exact hc1 d (by rw [List.drop_left]; exact hd1)
              · exact dictRefsGE_mono hlen d (hc2 d (by rw [List.drop_left]; exact hd2))
    intro h v h2 v2 hdc
    cases v with
    | pnone => cases hdc; exact ⟨⟨[], by simp⟩, rfl, by simp⟩
    | pbool b => cases hdc; exact ⟨⟨[], by simp⟩, rfl, by simp⟩
    | pint n => cases hdc; exact ⟨⟨[], by simp⟩, rfl, by simp⟩
    | pstr s => cases hdc; exact ⟨⟨[], by simp⟩, rfl, by simp⟩
    | pdt d => cases hdc; exact ⟨⟨[], by simp⟩, rfl, by simp⟩
    | plist l =>
      rw [dcVal] at hdc
      cases hdl : dcListH (dcVal fuel) h l with
      | none => rw [hdl] at hdc; cases hdc
      | some p =>
        obtain ⟨h1, l1⟩ := p
        rw [hdl] at hdc
        simp only [Option.some.injEq, Prod.mk.injEq] at hdc
        obtain ⟨rfl, rfl⟩ := hdc
        obtain ⟨he, hl1, hc⟩ := auxL l h h1 l1 hdl
        exact ⟨he, by simpa [valRefsGE] using hl1, hc⟩
    | pref r =>
      rw [dcVal] at hdc
      cases hr : h[r]? with
      | none => rw [hr] at hdc; cases hdc
      | some d =>
        rw [hr] at hdc
        simp only at hdc
        cases hdf : dcFieldsH (dcVal fuel) h d with
        | none => rw [hdf] at hdc; cases hdc
        | some q =>
          obtain ⟨h1, d1⟩ := q
          rw [hdf] at hdc
          simp only [Option.some.injEq, Prod.mk.injEq] at hdc
          obtain ⟨rfl, rfl⟩ := hdc
          obtain ⟨⟨e1, rfl⟩, hd1, hc⟩ := auxF d h h1 d1 hdf
          refine ⟨⟨e1 ++ [d1], by simp⟩, ?_, ?_⟩
          · simp only [valRefsGE, decide_eq_true_eq]
            simp
          · intro dd hdd
            rw [List.append_assoc, List.drop_left] at hdd
            rcases List.mem_append.mp hdd with hd2 | hd3
            · exact hc dd (by rw [List.drop_left]; exact hd2)
            · rw [List.mem_singleton] at hd3
              subst hd3
              exact hd1

theorem take_set_of_le {α : Type} (l : List α) (r n : Nat) (a : α) (hnr : n ≤ r) :
    (l.set r a).take n = l.take n := by
  apply List.ext_getElem?
  intro i
  rw [List.getElem?_take, List.getElem?_take]
  by_cases hi : i < n
  · rw [if_pos hi, if_pos hi, List.getElem?_set]
    rw [if_neg (by omega)]
  · rw [if_neg hi, if_neg hi]

theorem convertLoop_frame (tzOpt : Option PyTZ) (n : Nat) :
    ∀ (dps : List PyVal) (H : Heap), (∀ dp ∈ dps, valRefsGE n dp = true) →
      (convertLoop tzOpt H dps).1.take n = H.take n ∧
        (convertLoop tzOpt H dps).1.length = H.length
  | [], H, _ => ⟨rfl, rfl⟩
  | dp :: rest, H, hall => by
    have hdp := hall dp (List.mem_cons_self dp rest)
    have hrest := fun d hd => hall d (List.mem_cons_of_mem dp hd)
    cases tzOpt with
    | none =>
      have ihr := convertLoop_frame none n rest H hrest
      cases hcl : convertLoop none H rest with
      | mk h' res =>
        rw [hcl] at ihr
        cases res with
        | error e => simp only [convertLoop, hcl]; exact ihr
        | ok dps2 => simp only [convertLoop, hcl]; exact ihr
    | some tz =>
      cases hget : getItem H dp "Timestamp" with
      | error e => simp [convertLoop, hget]
      | ok tv =>
        cases tv with
        | pstr s =>
          cases hp : parseTimestamp s with
          | none => simp [convertLoop, hget, hp]
          | some m =>
            cases hset : setItem H dp "Timestamp"
                (.pdt (tzNormalize tz (astimezone tz (utcLocalize m)))) with
            | error e => simp [convertLoop, hget, hp, hset]
            | ok h2 =>
              have hh2 : h2.take n = H.take n ∧ h2.length = H.length := by
                cases dp with
                | pref r =>
                  simp only [valRefsGE, decide_eq_true_eq] at hdp
                  rw [setItem] at hset
                  cases hr : H[r]? with
                  | none => rw [hr] at hset; cases hset
                  | some d =>
                    rw [hr] at hset
                    simp only [Except.ok.injEq] at hset
                    subst hset
                    exact ⟨take_set_of_le H r n _ hdp, List.length_set H r _⟩
                | pnone => cases hset
                | pbool b => cases hset
                | pint k => cases hset
                | pstr s2 => cases hset
                | pdt d => cases hset
                | plist l => cases hset
              have ihr := convertLoop_frame (some tz) n rest h2 hrest
              cases hcl : convertLoop (some tz) h2 rest with
              | mk h' res =>
                rw [hcl] at ihr
                cases res with
                | error e =>
                  simp only [convertLoop, hget, hp, hset, hcl]
                  exact ⟨ihr.1.trans hh2.1, ihr.2.trans hh2.2⟩
                | ok dps2 =>
                  simp only [convertLoop, hget, hp, hset, hcl]
                  exact ⟨ihr.1.trans hh2.1, ihr.2.trans hh2.2⟩
        | pnone => simp [convertLoop, hget]
        | pbool b => simp [convertLoop, hget]
        | pint k => simp [convertLoop, hget]
        | pdt d => simp [convertLoop, hget]
        | plist l => simp [convertLoop, hget]
        | pref r => simp [convertLoop, hget]

/-- C4: stats_to_list never mutates any pre-existing heap object: for every
heap, argument and localize mode (timezone conversion included), the post-call
heap extends the pre-call heap cell for cell, so the caller's raw response
structure is unchanged; the in-place Timestamp rewrites touch only the fresh
cells allocated by the deep copy. -/
theorem C4_stats_to_list_frame (h : Heap) (stats_dict : PyVal) (localize : Option PyTZ) :
    ∃ ext, (stats_to_list h stats_dict localize).1 = h ++ ext := by
  cases hg1 : getItem h stats_dict "GetSendStatisticsResponse" with
  | error e => exact ⟨[], by simp [stats_to_list, hg1]⟩
  | ok v1 =>
  cases hg2 : getItem h v1 "GetSendStatisticsResult" with
  | error e => exact ⟨[], by simp [stats_to_list, hg1, hg2]⟩
  | ok result0 =>
  cases hdc : dcVal (h.length + 1) h result0 with
  | none => exact ⟨[], by simp [stats_to_list, hg1, hg2, hdc]⟩
  | some p =>
  obtain ⟨h1, result⟩ := p
  obtain ⟨⟨e1, rfl⟩, hres, hcells⟩ := dcVal_fresh _ _ _ _ _ hdc
  cases hget : getItem (h ++ e1) result "SendDataPoints" with
  | error e => exact ⟨e1, by simp [stats_to_list, hg1, hg2, hdc, hget]⟩
  | ok sdp =>
  have hsdp : valRefsGE h.length sdp = true := by
    cases result with
    | pref r =>
      simp only [valRefsGE, decide_eq_true_eq] at hres
      rw [getItem] at hget
      cases hr : (h ++ e1)[r]? with
      | none => rw [hr] at hget; cases hget
      | some d =>
        rw [hr] at hget
        simp only at hget
        have hdmem : d ∈ (h ++ e1).drop h.length := by
          rw [List.drop_left]
          have hre : e1[r - h.length]? = some d := by
            rw [← List.getElem?_append_right hres, hr]
          exact List.getElem?_mem hre
        have hdref := hcells d hdmem
        cases hdg : dGet d "SendDataPoints" with
        | none => rw [hdg] at hget; cases hget
        | some x =>
          rw [hdg] at hget
          simp only [Except.ok.injEq] at hget
          subst hget
          exact dGet_valRefsGE hdref hdg
    | pnone => cases hget
    | pbool b => cases hget
    | pint k => cases hget
    | pstr s => cases hget
    | pdt d => cases hget
    | plist l => cases hget
  cases sdp with
  | plist dps =>
    have hdps : ∀ dp ∈ dps, valRefsGE h.length dp = true := by
      simp only [valRefsGE] at hsdp
      exact (listRefsGE_iff h.length dps).mp hsdp
    have hframe := convertLoop_frame localize h.length dps (h ++ e1) hdps
    cases hcl : convertLoop localize (h ++ e1) dps with
    | mk h2 res =>
      rw [hcl] at hframe
      have hto : (h ++ e1).take h.length = h := List.take_left h e1
      have hh2 : h2 = h ++ h2.drop h.length := by
        conv_lhs => rw [← List.take_append_drop h.length h2]
        rw [hframe.1, hto]
      cases res with
      | error e =>
        exact ⟨h2.drop h.length, by
          simp only [stats_to_list, hg1, hg2, hdc, hget, hcl]
          exact hh2⟩
      | ok datapoints =>
        cases hst : sortByTs h2 datapoints with
        | error e =>
          exact ⟨h2.drop h.length, by
            simp only [stats_to_list, hg1, hg2, hdc, hget, hcl, hst]
            exact hh2⟩
        | ok out =>
          exact ⟨h2.drop h.length, by
            simp only [stats_to_list, hg1, hg2, hdc, hget, hcl, hst]
            exact hh2⟩
  | pnone => exact ⟨e1, by simp [stats_to_list, hg1, hg2, hdc, hget]⟩
  | pbool b => exact ⟨e1, by simp [stats_to_list, hg1, hg2, hdc, hget]⟩
  | pint k => exact ⟨e1, by simp [stats_to_list, hg1, hg2, hdc, hget]⟩
  | pstr s => exact ⟨e1, by simp [stats_to_list, hg1, hg2, hdc, hget]⟩
  | pdt d => exact ⟨e1, by simp [stats_to_list, hg1, hg2, hdc, hget]⟩
  | pref r => exact ⟨e1, by simp [stats_to_list, hg1, hg2, hdc, hget]⟩

theorem refRange_succ (a k : Nat) :
    refRange a (k + 1) = .pref a :: refRange (a + 1) k := by
  simp only [refRange, List.range_succ_eq_map, List.map_cons, List.map_map]
  congr 1
  apply List.map_congr_left
  intro i _
  simp only [Function.comp_apply]
  congr 1
  omega

theorem refRange_length (a k : Nat) : (refRange a k).length = k := by
  simp [refRange]

theorem allocVal_scalar (h : Heap) (t : JTree) (ht : scalarJ t = true) :
    allocVal h t = (h, primOf t) := by
  cases t with
  | jnull => rfl
  | jbool b => rfl
  | jint n => rfl
  | jstr s => rfl
  | jarr l => simp [scalarJ] at ht
  | jobj fs => simp [scalarJ] at ht

theorem allocFields_scalar (h : Heap) : ∀ fs : List (String × JTree),
    scalarFields fs = true → allocFields h fs = (h, primMap fs)
  | [], _ => rfl
  | (k, t) :: fs, hsc => by
    simp only [scalarFields, List.all_cons, Bool.and_eq_true] at hsc
    rw [allocFields, allocVal_scalar h t hsc.1,
      allocFields_scalar h fs (by simpa [scalarFields] using hsc.2)]
    simp [primMap]

theorem allocList_objs : ∀ (dps : List (List (String × JTree))) (h : Heap),
    (∀ fs ∈ dps, scalarFields fs = true) →
    allocList h (dps.map JTree.jobj)
      = (h ++ dps.map primMap, refRange h.length dps.length)
  | [], h, _ => by simp [allocList, refRange]
  | fs :: dps, h, hall => by
    rw [List.map_cons, allocList, allocVal,
      allocFields_scalar h fs (hall fs (List.mem_cons_self fs dps))]
    simp only
    rw [allocList_objs dps (h ++ [primMap fs])
      (fun d hd => hall d (List.mem_cons_of_mem fs hd))]
    simp only [List.map_cons, List.length_map, List.length_cons, List.length_append,
      List.length_singleton]
    rw [refRange_succ]
    simp [List.append_assoc]

theorem statsHeap_alloc (dps : List (List (String × JTree)))
    (hall : ∀ fs ∈ dps, scalarFields fs = true) :
    allocVal [] (statsTree dps) = (statsHeap dps, .pref (dps.length + 2)) := by
  rw [statsTree, statsEnv]
  rw [allocVal]
  simp only [allocFields, allocVal]
  rw [allocList_objs dps [] hall]
  simp [statsHeap, allocFields]

theorem primOf_primV (t : JTree) (ht : scalarJ t = true) : primV (primOf t) = true := by
  cases t <;> simp_all [scalarJ, primOf, primV]

theorem primMap_primDict (fs : List (String × JTree)) (hs : scalarFields fs = true) :
    primDict (primMap fs) = true := by
  simp only [scalarFields, List.all_eq_true] at hs
  simp only [primDict, primMap, List.all_eq_true]
  rintro ⟨k, v⟩ hm
  rw [List.mem_map] at hm
  obtain ⟨kv, hkv, heq⟩ := hm
  cases heq
  exact primOf_primV kv.2 (hs kv hkv)

theorem dGet_primMap (k : String) : ∀ fs : List (String × JTree),
    dGet (primMap fs) k = (lookupF fs k).map primOf
  | [] => rfl
  | (k', t) :: fs => by
    simp only [primMap, List.map_cons, dGet, lookupF]
    by_cases hk : k' = k
    · rw [if_pos hk, if_pos hk]
      rfl
    · rw [if_neg hk, if_neg hk]
      exact dGet_primMap k fs

theorem dGet_dSet_self (k : String) (v : PyVal) : ∀ d : SDict,
    dGet (dSet d k v) k = some v
  | [] => by simp [dSet, dGet]
  | (k', v') :: rest => by
    rw [dSet]
    by_cases hk : k' = k
    · rw [if_pos hk, dGet, if_pos rfl]
    · rw [if_neg hk, dGet, if_neg hk]
      exact dGet_dSet_self k v rest

theorem dcVal_prim (fu : Nat) (hfu : 1 ≤ fu) (h : Heap) (v : PyVal) (hv : primV v = true) :
    dcVal fu h v = some (h, v) := by
  obtain ⟨k, rfl⟩ : ∃ k, fu = k + 1 := ⟨fu - 1, by omega⟩
  cases v <;> simp_all [dcVal, primV]

theorem dcFieldsH_prim (fu : Nat) (hfu : 1 ≤ fu) (h : Heap) : ∀ d : SDict,
    primDict d = true → dcFieldsH (dcVal fu) h d = some (h, d)
  | [], _ => rfl
  | kv :: rest, hp => by
    simp only [primDict, List.all_cons, Bool.and_eq_true] at hp
    rw [dcFieldsH, dcVal_prim fu hfu h kv.2 hp.1]
    simp only
    rw [dcFieldsH_prim fu hfu h rest (by simpa [primDict] using hp.2)]

theorem dcVal_refPrim (fu : Nat) (hfu : 2 ≤ fu) (h : Heap) (r : Nat) (d : SDict)
    (hr : h[r]? = some d) (hd : primDict d = true) :
    dcVal fu h (.pref r) = some (h ++ [d], .pref h.length) := by
  obtain ⟨k, rfl⟩ : ∃ k, fu = k + 2 := ⟨fu - 2, by omega⟩
  rw [show k + 2 = (k + 1) + 1 from rfl, dcVal, hr]
  simp only
  rw [dcFieldsH_prim (k + 1) (by omega) h d hd]

theorem dcListH_refs (fu : Nat) (hfu : 2 ≤ fu) (H0 : Heap) :
    ∀ (ds : List SDict) (a : Nat) (ext : Heap) (rest : List SDict),
      (∀ d ∈ ds, primDict d = true) →
      H0.drop a = ds ++ rest →
      dcListH (dcVal fu) (H0 ++ ext) (refRange a ds.length)
        = some (H0 ++ ext ++ ds, refRange (H0.length + ext.length) ds.length)
  | [], a, ext, rest, _, _ => by simp [refRange, dcListH]
  | d :: ds, a, ext, rest, hall, hdrop => by
    have hget0 : H0[a]? = some d := by
      have h0 : (H0.drop a)[0]? = some d := by rw [hdrop]; simp
      rw [List.getElem?_drop] at h0
      simpa using h0
    have hlt : a < H0.length := by
      rcases List.getElem?_eq_some.mp hget0 with ⟨hl, _⟩
      exact hl
    have hgetA : (H0 ++ ext)[a]? = some d := by
      rw [List.getElem?_append_left hlt]
      exact hget0
    rw [List.length_cons, refRange_succ, dcListH,
      dcVal_refPrim fu hfu (H0 ++ ext) a d hgetA
        (hall d (List.mem_cons_self d ds))]
    simp only
    have hdrop' : H0.drop (a + 1) = ds ++ rest := by
      have : H0.drop (a + 1) = (H0.drop a).drop 1 := by
        rw [List.drop_drop]
      rw [this, hdrop]
      rfl
    have hrec := dcListH_refs fu hfu H0 ds (a + 1) (ext ++ [d]) rest
      (fun x hx => hall x (List.mem_cons_of_mem d hx)) hdrop'
    rw [← List.append_assoc H0 ext [d]] at hrec
    rw [hrec]
    simp only [List.length_append, List.length_singleton, Option.some.injEq,
      Prod.mk.injEq]
    constructor
    · simp [List.append_assoc]
    · rw [show H0.length + (ext.length + 1) = (H0.length + ext.length) + 1 by omega,
        ← refRange_succ]

theorem statsHeap_length (dps : List (List (String × JTree))) :
    (statsHeap dps).length = dps.length + 3 := by
  simp [statsHeap]

theorem statsHeap_copy (dps : List (List (String × JTree)))
    (hall : ∀ fs ∈ dps, scalarFields fs = true) :
    dcVal ((statsHeap dps).length + 1) (statsHeap dps) (.pref dps.length)
      = some (statsHeap dps ++ dps.map primMap ++
          [[("SendDataPoints", .plist (refRange (dps.length + 3) dps.length))]],
        .pref (dps.length + 3 + dps.length)) := by
  have hrefs := dcListH_refs (dps.length + 2) (by omega) (statsHeap dps)
    (dps.map primMap) 0 []
    [[("SendDataPoints", .plist (refRange 0 dps.length))],
     [("GetSendStatisticsResult", .pref dps.length)],
     [("GetSendStatisticsResponse", .pref (dps.length + 1))]]
    (by
      intro d hd
      rw [List.mem_map] at hd
      obtain ⟨fs, hfs, rfl⟩ := hd
      exact primMap_primDict fs (hall fs hfs))
    (by simp [statsHeap])
  rw [List.append_nil] at hrefs
  simp only [List.length_map, List.length_nil, Nat.add_zero, statsHeap_length] at hrefs
  have hplist : dcVal (dps.length + 3) (statsHeap dps) (.plist (refRange 0 dps.length))
      = some (statsHeap dps ++ dps.map primMap,
          .plist (refRange (dps.length + 3) dps.length)) := by
    rw [show dps.length + 3 = (dps.length + 2) + 1 from rfl, dcVal, hrefs]
  have hgetn : (statsHeap dps)[dps.length]?
      = some [("SendDataPoints", .plist (refRange 0 dps.length))] := by
    rw [statsHeap, List.getElem?_append_right (by simp)]
    simp
  rw [statsHeap_length, show dps.length + 3 + 1 = (dps.length + 3) + 1 from rfl,
    dcVal, hgetn]
  simp only
  rw [dcFieldsH, hplist]
  simp only
  rw [dcFieldsH]
  simp [List.append_assoc, statsHeap_length]

theorem set_append_len {α : Type} (d' : α) : ∀ (A : List α) (d : α) (rest : List α),
    (A ++ d :: rest).set A.length d' = A ++ d' :: rest
  | [], d, rest => rfl
  | a :: A, d, rest => by
    simp only [List.cons_append, List.length_cons, List.set_cons_succ]
    rw [set_append_len d' A d rest]

theorem getElem?_append_cons {α : Type} (A : List α) (d : α) (rest : List α) :
    (A ++ d :: rest)[A.length]? = some d := by
  rw [List.getElem?_append_right le_rfl]
  simp

theorem convertLoop_none : ∀ (h : Heap) (dps : List PyVal),
    convertLoop none h dps = (h, .ok dps)
  | _, [] => rfl
  | h, dp :: rest => by
    rw [convertLoop, convertLoop_none h rest]

theorem tsOK_elim (d : SDict) (hd : tsOK d = true) :
    ∃ s m, dGet d "Timestamp" = some (.pstr s) ∧ parseTimestamp s = some m := by
  rw [tsOK] at hd
  cases hg : dGet d "Timestamp" with
  | none => rw [hg] at hd; cases hd
  | some tv =>
    rw [hg] at hd
    cases tv <;> simp at hd
    case pstr s =>
      cases hp : parseTimestamp s with
      | none => rw [hp] at hd; simp [Option.isSome] at hd
      | some m => exact ⟨s, m, rfl, hp⟩

theorem convDict_eq (tz : PyTZ) (d : SDict) (s : String) (m : Int)
    (hg : dGet d "Timestamp" = some (.pstr s)) (hp : parseTimestamp s = some m) :
    convDict tz d = dSet d "Timestamp" (.pdt (convDT tz m)) := by
  rw [convDict, hg]
  simp only [hp]

theorem convDict_ts (tz : PyTZ) (d : SDict) (s : String) (m : Int)
    (hg : dGet d "Timestamp" = some (.pstr s)) (hp : parseTimestamp s = some m) :
    dGet (convDict tz d) "Timestamp" = some (.pdt (convDT tz m)) := by
  rw [convDict_eq tz d s m hg hp]
  exact dGet_dSet_self "Timestamp" _ d

theorem convertLoop_tz (tz : PyTZ) : ∀ (ds : List SDict) (A C : Heap),
    (∀ d ∈ ds, tsOK d = true) →
    convertLoop (some tz) (A ++ ds ++ C) (refRange A.length ds.length)
      = (A ++ ds.map (convDict tz) ++ C, .ok (refRange A.length ds.length))
  | [], A, C, _ => by simp [refRange, convertLoop]
  | d :: ds, A, C, hall => by
    obtain ⟨s, m, hg, hp⟩ := tsOK_elim d (hall d (List.mem_cons_self d ds))
    have hassoc : A ++ (d :: ds) ++ C = A ++ d :: (ds ++ C) := by simp
    have hga : getItem (A ++ (d :: ds) ++ C) (.pref A.length) "Timestamp"
        = .ok (.pstr s) := by
      rw [getItem, hassoc, getElem?_append_cons]
      simp [hg]
    have hset : setItem (A ++ (d :: ds) ++ C) (.pref A.length) "Timestamp"
        (.pdt (tzNormalize tz (astimezone tz (utcLocalize m))))
        = .ok (A ++ convDict tz d :: (ds ++ C)) := by
      rw [setItem, hassoc, getElem?_append_cons]
      simp only [Except.ok.injEq]
      rw [set_append_len]
      rw [convDict_eq tz d s m hg hp]
      rfl
    rw [List.length_cons, refRange_succ, convertLoop]
    simp only [hga, hp, hset]
    have hrec := convertLoop_tz tz ds (A ++ [convDict tz d]) C
      (fun x hx => hall x (List.mem_cons_of_mem d hx))
    rw [show (A ++ [convDict tz d]) ++ ds ++ C = A ++ convDict tz d :: (ds ++ C) by simp,
      show (A ++ [convDict tz d]).length = A.length + 1 by simp] at hrec
    rw [hrec]
    simp [List.append_assoc]

theorem convertLoop_err (tz : PyTZ) : ∀ (good : List SDict) (bad : SDict)
    (rest : List SDict) (A C : Heap),
    (∀ d ∈ good, tsOK d = true) → tsBad bad = true →
    (convertLoop (some tz) (A ++ (good ++ bad :: rest) ++ C)
        (refRange A.length (good ++ bad :: rest).length)).2
      = .error .valueError
  | [], bad, rest, A, C, _, hbad => by
    rw [tsBad] at hbad
    cases hg : dGet bad "Timestamp" with
    | none => rw [hg] at hbad; cases hbad
    | some tv =>
      rw [hg] at hbad
      cases tv <;> simp at hbad
      case pstr s =>
        cases hp : parseTimestamp s with
        | some m => rw [hp] at hbad; simp [Option.isNone] at hbad
        | none =>
          have hassoc : A ++ (bad :: rest) ++ C = A ++ bad :: (rest ++ C) := by simp
          have hga : getItem (A ++ (bad :: rest) ++ C) (.pref A.length) "Timestamp"
              = .ok (.pstr s) := by
            rw [getItem, hassoc, getElem?_append_cons]
            simp [hg]
          rw [List.nil_append, List.length_cons, refRange_succ, convertLoop]
          simp only [hga, hp]
  | d :: good, bad, rest, A, C, hall, hbad => by
    obtain ⟨s, m, hg, hp⟩ := tsOK_elim d (hall d (List.mem_cons_self d good))
    have hassoc : A ++ ((d :: good) ++ bad :: rest) ++ C
        = A ++ d :: ((good ++ bad :: rest) ++ C) := by simp
    have hga : getItem (A ++ ((d :: good) ++ bad :: rest) ++ C) (.pref A.length) "Timestamp"
        = .ok (.pstr s) := by
      rw [getItem, hassoc, getElem?_append_cons]
      simp [hg]
    have hset : setItem (A ++ ((d :: good) ++ bad :: rest) ++ C) (.pref A.length) "Timestamp"
        (.pdt (tzNormalize tz (astimezone tz (utcLocalize m))))
        = .ok (A ++ convDict tz d :: ((good ++ bad :: rest) ++ C)) := by
      rw [setItem, hassoc, getElem?_append_cons]
      simp only [Except.ok.injEq]
      rw [set_append_len]
      rw [convDict_eq tz d s m hg hp]
      rfl
    rw [show ((d :: good) ++ bad :: rest).length = (good ++ bad :: rest).length + 1 by simp,
      refRange_succ, convertLoop]
    simp only [hga, hp, hset]
    have hrec := convertLoop_err tz good bad rest (A ++ [convDict tz d]) C
      (fun x hx => hall x (List.mem_cons_of_mem d hx)) hbad
    rw [show (A ++ [convDict tz d]) ++ (good ++ bad :: rest) ++ C
        = A ++ convDict tz d :: ((good ++ bad :: rest) ++ C) by simp,
      show (A ++ [convDict tz d]).length = A.length + 1 by simp] at hrec
    cases hcl : convertLoop (some tz) (A ++ convDict tz d :: ((good ++ bad :: rest) ++ C))
        (refRange (A.length + 1) (good ++ bad :: rest).length) with
    | mk h2 res =>
      rw [hcl] at hrec
      simp only at hrec
      cases res with
      | error e => simpa using hrec
      | ok l => cases hrec

theorem keysOf_refs : ∀ (ds : List SDict) (A C : Heap),
    (∀ d ∈ ds, hasTs d = true) →
    keysOf (A ++ ds ++ C) (refRange A.length ds.length) = .ok (ds.map tsOf)
  | [], A, C, _ => by simp [refRange, keysOf]
  | d :: ds, A, C, hall => by
    have hassoc : A ++ (d :: ds) ++ C = A ++ d :: (ds ++ C) := by simp
    have hg : getItem (A ++ (d :: ds) ++ C) (.pref A.length) "Timestamp"
        = .ok (tsOf d) := by
      rw [getItem, hassoc, getElem?_append_cons]
      simp only
      have hts := hall d (List.mem_cons_self d ds)
      rw [hasTs] at hts
      cases hgd : dGet d "Timestamp" with
      | none => rw [hgd] at hts; simp [Option.isSome] at hts
      | some v => simp [tsOf, hgd]
    rw [List.length_cons, refRange_succ, keysOf]
    simp only [hg]
    have hrec := keysOf_refs ds (A ++ [d]) C
      (fun x hx => hall x (List.mem_cons_of_mem d hx))
    rw [show (A ++ [d]) ++ ds ++ C = A ++ (d :: ds) ++ C by simp,
      show (A ++ [d]).length = A.length + 1 by simp] at hrec
    rw [hrec]
    rfl

theorem zip_pairs_spec : ∀ (ds : List SDict) (A C : Heap),
    (∀ d ∈ ds, hasTs d = true) →
    ∀ p ∈ (ds.map tsOf).zip (refRange A.length ds.length),
      getItem (A ++ ds ++ C) p.2 "Timestamp" = .ok p.1
  | [], A, C, _ => by simp [refRange]
  | d :: ds, A, C, hall => by
    intro p hp
    rw [List.length_cons, refRange_succ, List.map_cons, List.zip_cons_cons] at hp
    have hassoc : A ++ (d :: ds) ++ C = A ++ d :: (ds ++ C) := by simp
    rcases List.mem_cons.mp hp with rfl | hp'
    · have hts := hall d (List.mem_cons_self d ds)
      rw [hasTs] at hts
      rw [getItem, hassoc, getElem?_append_cons]
      simp only
      cases hgd : dGet d "Timestamp" with
      | none => rw [hgd] at hts; simp [Option.isSome] at hts
      | some v => simp [tsOf, hgd]
    · have hrec := zip_pairs_spec ds (A ++ [d]) C
        (fun x hx => hall x (List.mem_cons_of_mem d hx)) p
        (by simpa using hp')
      rw [show (A ++ [d]) ++ ds ++ C = A ++ (d :: ds) ++ C by simp] at hrec
      exact hrec

theorem keysOf_pairs (H : Heap) : ∀ sp : List (PyVal × PyVal),
    (∀ p ∈ sp, getItem H p.2 "Timestamp" = .ok p.1) →
    keysOf H (sp.map Prod.snd) = .ok (sp.map Prod.fst)
  | [], _ => rfl
  | p :: sp, hall => by
    rw [List.map_cons, List.map_cons, keysOf]
    simp only [hall p (List.mem_cons_self p sp)]
    rw [keysOf_pairs H sp (fun q hq => hall q (List.mem_cons_of_mem p hq))]

theorem dpTsParses_elim (fs : List (String × JTree)) (h : dpTsParses fs = true) :
    ∃ s m, dGet (primMap fs) "Timestamp" = some (.pstr s) ∧ parseTimestamp s = some m ∧
      fieldTs fs = some s ∧ dpInst fs = some m := by
  rw [dpTsParses] at h
  cases hf : fieldTs fs with
  | none => simp only [hf] at h; cases h
  | some s =>
    simp only [hf] at h
    cases hp : parseTimestamp s with
    | none => simp only [hp, Option.isSome] at h; cases h
    | some m =>
      refine ⟨s, m, ?_, hp, rfl, ?_⟩
      · rw [fieldTs] at hf
        cases hl : lookupF fs "Timestamp" with
        | none => simp only [hl] at hf; cases hf
        | some t =>
          simp only [hl] at hf
          cases t <;> simp at hf
          case jstr s2 =>
            cases hf
            rw [dGet_primMap, hl]
            rfl
      · simp only [dpInst, hf, hp]

theorem dpTsParses_tsOK (fs : List (String × JTree)) (h : dpTsParses fs = true) :
    tsOK (primMap fs) = true := by
  obtain ⟨s, m, hg, hp, _, _⟩ := dpTsParses_elim fs h
  simp only [tsOK, hg, hp, Option.isSome]

theorem dpTsStr_elim (fs : List (String × JTree)) (h : dpTsStr fs = true) :
    ∃ s, fieldTs fs = some s ∧ dGet (primMap fs) "Timestamp" = some (.pstr s) := by
  rw [dpTsStr] at h
  cases hf : fieldTs fs with
  | none => simp only [hf, Option.isSome] at h; cases h
  | some s =>
    refine ⟨s, rfl, ?_⟩
    rw [fieldTs] at hf
    cases hl : lookupF fs "Timestamp" with
    | none => simp only [hl] at hf; cases hf
    | some t =>
      simp only [hl] at hf
      cases t <;> simp at hf
      case jstr s2 =>
        cases hf
        rw [dGet_primMap, hl]
        rfl

theorem dpTsStr_hasTs (fs : List (String × JTree)) (h : dpTsStr fs = true) :
    hasTs (primMap fs) = true := by
  obtain ⟨s, _, hg⟩ := dpTsStr_elim fs h
  rw [hasTs, hg]
  rfl

theorem statsHeap_get_top (dps : List (List (String × JTree))) :
    getItem (statsHeap dps) (.pref (dps.length + 2)) "GetSendStatisticsResponse"
      = .ok (.pref (dps.length + 1)) := by
  have hidx : (statsHeap dps)[dps.length + 2]?
      = some [("GetSendStatisticsResponse", .pref (dps.length + 1))] := by
    rw [statsHeap, List.getElem?_append_right (by simp)]
    simp only [List.length_map]
    rw [show dps.length + 2 - dps.length = 2 by omega]
    simp
  rw [getItem, hidx]
  simp [dGet]

theorem statsHeap_get_resp (dps : List (List (String × JTree))) :
    getItem (statsHeap dps) (.pref (dps.length + 1)) "GetSendStatisticsResult"
      = .ok (.pref dps.length) := by
  have hidx : (statsHeap dps)[dps.length + 1]?
      = some [("GetSendStatisticsResult", .pref dps.length)] := by
    rw [statsHeap, List.getElem?_append_right (by simp)]
    simp only [List.length_map]
    rw [show dps.length + 1 - dps.length = 1 by omega]
    simp
  rw [getItem, hidx]
  simp [dGet]

theorem statsHeap2_get_sdp (dps : List (List (String × JTree))) :
    getItem (statsHeap dps ++ dps.map primMap ++
        [[("SendDataPoints", .plist (refRange (dps.length + 3) dps.length))]])
        (.pref (dps.length + 3 + dps.length)) "SendDataPoints"
      = .ok (.plist (refRange (dps.length + 3) dps.length)) := by
  have hidx := getElem?_append_cons (statsHeap dps ++ dps.map primMap)
    [("SendDataPoints", PyVal.plist (refRange (dps.length + 3) dps.length))] []
  rw [List.length_append, statsHeap_length, List.length_map] at hidx
  rw [getItem, hidx]
  simp [dGet]

theorem stats_run_tz (dps : List (List (String × JTree))) (tz : PyTZ)
    (hs : ∀ fs ∈ dps, scalarFields fs = true)
    (hts : ∀ fs ∈ dps, dpTsParses fs = true) :
    stats_to_list (statsHeap dps) (.pref (dps.length + 2)) (some tz)
      = (statsHeap dps ++ (dps.map primMap).map (convDict tz) ++
          [[("SendDataPoints", .plist (refRange (dps.length + 3) dps.length))]],
        .ok ((List.insertionSort pairKeyRel
            ((((dps.map primMap).map (convDict tz)).map tsOf).zip
              (refRange (dps.length + 3) dps.length))).map Prod.snd)) := by
  have htsOK : ∀ d ∈ dps.map primMap, tsOK d = true := by
    intro d hd
    rw [List.mem_map] at hd
    obtain ⟨fs, hfs, rfl⟩ := hd
    exact dpTsParses_tsOK fs (hts fs hfs)
  have hhasTs : ∀ d ∈ (dps.map primMap).map (convDict tz), hasTs d = true := by
    intro d hd
    rw [List.mem_map] at hd
    obtain ⟨d0, hd0, rfl⟩ := hd
    rw [List.mem_map] at hd0
    obtain ⟨fs, hfs, rfl⟩ := hd0
    obtain ⟨s, m, hg, hp⟩ := tsOK_elim (primMap fs) (dpTsParses_tsOK fs (hts fs hfs))
    simp only [hasTs, convDict_ts tz (primMap fs) s m hg hp, Option.isSome]
  have hconv := convertLoop_tz tz (dps.map primMap) (statsHeap dps)
    [[("SendDataPoints", .plist (refRange (dps.length + 3) dps.length))]] htsOK
  rw [statsHeap_length, List.length_map] at hconv
  have hkeys := keysOf_refs ((dps.map primMap).map (convDict tz)) (statsHeap dps)
    [[("SendDataPoints", .plist (refRange (dps.length + 3) dps.length))]] hhasTs
  rw [statsHeap_length, List.length_map, List.length_map] at hkeys
  rw [stats_to_list]
  simp only [statsHeap_get_top, statsHeap_get_resp, statsHeap_copy dps hs,
    statsHeap2_get_sdp, hconv, sortByTs, hkeys]

theorem stats_run_none (dps : List (List (String × JTree)))
    (hs : ∀ fs ∈ dps, scalarFields fs = true)
    (hts : ∀ fs ∈ dps, dpTsStr fs = true) :
    stats_to_list (statsHeap dps) (.pref (dps.length + 2)) none
      = (statsHeap dps ++ dps.map primMap ++
          [[("SendDataPoints", .plist (refRange (dps.length + 3) dps.length))]],
        .ok ((List.insertionSort pairKeyRel
            (((dps.map primMap).map tsOf).zip
              (refRange (dps.length + 3) dps.length))).map Prod.snd)) := by
  have hhasTs : ∀ d ∈ dps.map primMap, hasTs d = true := by
    intro d hd
    rw [List.mem_map] at hd
    obtain ⟨fs, hfs, rfl⟩ := hd
    exact dpTsStr_hasTs fs (hts fs hfs)
  have hkeys := keysOf_refs (dps.map primMap) (statsHeap dps)
    [[("SendDataPoints", .plist (refRange (dps.length + 3) dps.length))]] hhasTs
  rw [statsHeap_length, List.length_map] at hkeys
  rw [stats_to_list]
  simp only [statsHeap_get_top, statsHeap_get_resp, statsHeap_copy dps hs,
    statsHeap2_get_sdp, convertLoop_none, sortByTs, hkeys]

theorem sorted_pipeline (H2 : Heap) (ds : List SDict) (A C : Heap)
    (hH : H2 = A ++ ds ++ C) (hts : ∀ d ∈ ds, hasTs d = true) :
    ((List.insertionSort pairKeyRel
        ((ds.map tsOf).zip (refRange A.length ds.length))).map Prod.snd).length
      = ds.length ∧
    ∃ ks, keysOf H2 ((List.insertionSort pairKeyRel
        ((ds.map tsOf).zip (refRange A.length ds.length))).map Prod.snd) = .ok ks ∧
      ks.Pairwise (fun a b => pyKeyLE a b = true) ∧
      ks.Perm (ds.map tsOf) := by
  have hperm : (List.insertionSort pairKeyRel
      ((ds.map tsOf).zip (refRange A.length ds.length))).Perm
      ((ds.map tsOf).zip (refRange A.length ds.length)) :=
    List.perm_insertionSort _ _
  have hlen : (List.insertionSort pairKeyRel
      ((ds.map tsOf).zip (refRange A.length ds.length))).length = ds.length := by
    rw [hperm.length_eq, List.length_zip, List.length_map, refRange_length]
    omega
  have hmem : ∀ p ∈ List.insertionSort pairKeyRel
      ((ds.map tsOf).zip (refRange A.length ds.length)),
      getItem H2 p.2 "Timestamp" = .ok p.1 := by
    intro p hp
    subst hH
    exact zip_pairs_spec ds A C hts p (hperm.mem_iff.mp hp)
  refine ⟨by simp [hlen], (List.insertionSort pairKeyRel
      ((ds.map tsOf).zip (refRange A.length ds.length))).map Prod.fst,
    keysOf_pairs H2 _ hmem, ?_, ?_⟩
  · haveI : IsTotal (PyVal × PyVal) pairKeyRel := ⟨fun p q => pyKeyLE_total p.1 q.1⟩
    haveI : IsTrans (PyVal × PyVal) pairKeyRel :=
      ⟨fun p q r hpq hqr => pyKeyLE_trans p.1 q.1 r.1 hpq hqr⟩
    have hsorted : (List.insertionSort pairKeyRel
        ((ds.map tsOf).zip (refRange A.length ds.length))).Pairwise pairKeyRel :=
      List.sorted_insertionSort pairKeyRel _
    exact List.Pairwise.map Prod.fst (fun p q hpq => hpq) hsorted
  · have hmf := hperm.map Prod.fst
    rw [List.map_fst_zip] at hmf
    · exact hmf
    · rw [List.length_map, refRange_length]

/-- C3: for every canonical send-statistics response with N datapoints (string
fields, arbitrary timestamp order), stats_to_list returns exactly N
datapoints sorted ascending by their Timestamp key — by the converted
aware-datetime when a timezone is available, by the raw timestamp value when
not. -/
theorem C3_stats_to_list_sorted (dps : List (List (String × JTree))) (tz : PyTZ)
    (hs : ∀ fs ∈ dps, scalarFields fs = true) :
    ((∀ fs ∈ dps, dpTsParses fs = true) →
      ∃ h2 out ks,
        stats_to_list (statsHeap dps) (.pref (dps.length + 2)) (some tz) = (h2, .ok out) ∧
        out.length = dps.length ∧
        keysOf h2 out = .ok ks ∧
        ks.Pairwise (fun a b => pyKeyLE a b = true)) ∧
    ((∀ fs ∈ dps, dpTsStr fs = true) →
      ∃ h2 out ks,
        stats_to_list (statsHeap dps) (.pref (dps.length + 2)) none = (h2, .ok out) ∧
        out.length = dps.length ∧
        keysOf h2 out = .ok ks ∧
        ks.Pairwise (fun a b => pyKeyLE a b = true)) := by
  constructor
  · intro hts
    have hrun := stats_run_tz dps tz hs hts
    have hhasTs : ∀ d ∈ (dps.map primMap).map (convDict tz), hasTs d = true := by
      intro d hd
      rw [List.mem_map] at hd
      obtain ⟨d0, hd0, rfl⟩ := hd
      rw [List.mem_map] at hd0
      obtain ⟨fs, hfs, rfl⟩ := hd0
      obtain ⟨s, m, hg, hp⟩ := tsOK_elim (primMap fs) (dpTsParses_tsOK fs (hts fs hfs))
      simp only [hasTs, convDict_ts tz (primMap fs) s m hg hp, Option.isSome]
    have hpipe := sorted_pipeline _ ((dps.map primMap).map (convDict tz)) (statsHeap dps)
      [[("SendDataPoints", .plist (refRange (dps.length + 3) dps.length))]] rfl hhasTs
    simp only [statsHeap_length, List.length_map] at hpipe
    obtain ⟨hlen, ks, hks, hpw, _⟩ := hpipe
    refine ⟨_, _, ks, hrun, ?_, hks, hpw⟩
    rw [List.length_map]
    exact hlen
  · intro hts
    have hrun := stats_run_none dps hs hts
    have hhasTs : ∀ d ∈ dps.map primMap, hasTs d = true := by
      intro d hd
      rw [List.mem_map] at hd
      obtain ⟨fs, hfs, rfl⟩ := hd
      exact dpTsStr_hasTs fs (hts fs hfs)
    have hpipe := sorted_pipeline _ (dps.map primMap) (statsHeap dps)
      [[("SendDataPoints", .plist (refRange (dps.length + 3) dps.length))]] rfl hhasTs
    simp only [statsHeap_length, List.length_map] at hpipe
    obtain ⟨hlen, ks, hks, hpw, _⟩ := hpipe
    refine ⟨_, _, ks, hrun, ?_, hks, hpw⟩
    rw [List.length_map]
    exact hlen

theorem convDT_utc (tz : PyTZ) (m : Int) : (convDT tz m).utc = m := by
  simp [convDT, tzNormalize, astimezone, utcLocalize, PyDateTime.utc]

/-- C6: with a target timezone, every well-formed UTC timestamp in the input
is converted to an aware datetime whose UTC-equivalent equals the originally
parsed UTC instant: the multiset of UTC instants carried by the returned
Timestamp keys is exactly the multiset of instants parsed from the input
strings (zone conversion is a lossless round trip). -/
theorem C6_timezone_roundtrip (dps : List (List (String × JTree))) (tz : PyTZ)
    (hs : ∀ fs ∈ dps, scalarFields fs = true)
    (hts : ∀ fs ∈ dps, dpTsParses fs = true) :
    ∃ h2 out ks,
      stats_to_list (statsHeap dps) (.pref (dps.length + 2)) (some tz) = (h2, .ok out) ∧
      keysOf h2 out = .ok ks ∧
      (ks.map dtUtcOf).Perm (dps.map dpInst) := by
  have hrun := stats_run_tz dps tz hs hts
  have hhasTs : ∀ d ∈ (dps.map primMap).map (convDict tz), hasTs d = true := by
    intro d hd
    rw [List.mem_map] at hd
    obtain ⟨d0, hd0, rfl⟩ := hd
    rw [List.mem_map] at hd0
    obtain ⟨fs, hfs, rfl⟩ := hd0
    obtain ⟨s, m, hg, hp⟩ := tsOK_elim (primMap fs) (dpTsParses_tsOK fs (hts fs hfs))
    simp only [hasTs, convDict_ts tz (primMap fs) s m hg hp, Option.isSome]
  have hpipe := sorted_pipeline _ ((dps.map primMap).map (convDict tz)) (statsHeap dps)
    [[("SendDataPoints", .plist (refRange (dps.length + 3) dps.length))]] rfl hhasTs
  simp only [statsHeap_length, List.length_map] at hpipe
  obtain ⟨_, ks, hks, _, hksperm⟩ := hpipe
  refine ⟨_, _, ks, hrun, hks, ?_⟩
  have h1 : (((dps.map primMap).map (convDict tz)).map tsOf).map dtUtcOf
      = dps.map dpInst := by
    simp only [List.map_map]
    apply List.map_congr_left
    intro fs hfs
    obtain ⟨s, m, hg, hp, _, hinst⟩ := dpTsParses_elim fs (hts fs hfs)
    simp only [Function.comp_apply]
    rw [show tsOf (convDict tz (primMap fs)) = .pdt (convDT tz m) by
        rw [tsOf, convDict_ts tz (primMap fs) s m hg hp]; rfl,
      hinst]
    simp [dtUtcOf, convDT_utc]
  have h2 := hksperm.map dtUtcOf
  rw [h1] at h2
  exact h2

/-- C10: when localization is unavailable (localize falsy, pytz absent),
stats_to_list performs no timestamp parsing: the call succeeds with all N
datapoints even when Timestamp strings are malformed, and each datapoint's
Timestamp passes through unchanged as its original string. -/
theorem C10_no_localize_passthrough (dps : List (List (String × JTree)))
    (hs : ∀ fs ∈ dps, scalarFields fs = true)
    (hts : ∀ fs ∈ dps, dpTsStr fs = true) :
    ∃ h2 out,
      stats_to_list (statsHeap dps) (.pref (dps.length + 2)) none = (h2, .ok out) ∧
      out.length = dps.length ∧
      keysOf h2 (refRange (dps.length + 3) dps.length)
        = .ok (dps.map fun fs => .pstr ((fieldTs fs).getD "")) := by
  have hrun := stats_run_none dps hs hts
  have hhasTs : ∀ d ∈ dps.map primMap, hasTs d = true := by
    intro d hd
    rw [List.mem_map] at hd
    obtain ⟨fs, hfs, rfl⟩ := hd
    exact dpTsStr_hasTs fs (hts fs hfs)
  refine ⟨_, _, hrun, ?_, ?_⟩
  · rw [List.length_map, List.length_insertionSort, List.length_zip,
      List.length_map, List.length_map, refRange_length]
    omega
  · have hkeys := keysOf_refs (dps.map primMap) (statsHeap dps)
      [[("SendDataPoints", .plist (refRange (dps.length + 3) dps.length))]] hhasTs
    simp only [statsHeap_length, List.length_map] at hkeys
    rw [hkeys]
    congr 1
    simp only [List.map_map]
    apply List.map_congr_left
    intro fs hfs
    obtain ⟨s, hf, hg⟩ := dpTsStr_elim fs (hts fs hfs)
    simp [Function.comp_apply, tsOf, hg, hf]

theorem exists_first_false {α : Type} (p : α → Bool) : ∀ (l : List α),
    (∃ x ∈ l, p x = false) →
    ∃ good bad rest, l = good ++ bad :: rest ∧ (∀ x ∈ good, p x = true) ∧ p bad = false
  | [], h => by
    obtain ⟨x, hx, _⟩ := h
    cases hx
  | a :: l, h => by
    cases hpa : p a with
    | false => exact ⟨[], a, l, rfl, fun y hy => absurd hy (List.not_mem_nil y), hpa⟩
    | true =>
      obtain ⟨x, hx, hpx⟩ := h
      rcases List.mem_cons.mp hx with rfl | hx2
      · rw [hpa] at hpx
        cases hpx
      · obtain ⟨good, bad, rest, hl, hg, hb⟩ := exists_first_false p l ⟨x, hx2, hpx⟩
        refine ⟨a :: good, bad, rest, by rw [hl]; rfl, ?_, hb⟩
        intro y hy
        rcases List.mem_cons.mp hy with rfl | hy2
        · exact hpa
        · exact hg y hy2

theorem dpBad_tsBad (fs : List (String × JTree)) (hstr : dpTsStr fs = true)
    (hbad : dpTsParses fs = false) : tsBad (primMap fs) = true := by
  obtain ⟨s, hf, hg⟩ := dpTsStr_elim fs hstr
  simp only [dpTsParses, hf] at hbad
  simp only [tsBad, hg]
  cases hp : parseTimestamp s with
  | some m => rw [hp] at hbad; simp [Option.isSome] at hbad
  | none => rfl

theorem statsEnvObj_alloc (rfs : List (String × JTree)) (hs : scalarFields rfs = true) :
    allocVal [] (statsEnv (.jobj rfs))
      = ([primMap rfs,
          [("GetSendStatisticsResult", .pref 0)],
          [("GetSendStatisticsResponse", .pref 1)]], .pref 2) := by
  rw [statsEnv, allocVal]
  simp only [allocFields, allocVal]
  rw [allocFields_scalar [] rfs hs]
  simp [allocFields]

theorem C5a_run (rfs : List (String × JTree)) (localize : Option PyTZ)
    (hs : scalarFields rfs = true)
    (hnone : lookupF rfs "SendDataPoints" = none) :
    (stats_to_list
        [primMap rfs,
         [("GetSendStatisticsResult", .pref 0)],
         [("GetSendStatisticsResponse", .pref 1)]]
        (.pref 2) localize).2
      = .error (.keyError "SendDataPoints") := by
  have hg1 : getItem
      [primMap rfs, [("GetSendStatisticsResult", .pref 0)],
       [("GetSendStatisticsResponse", .pref 1)]]
      (.pref 2) "GetSendStatisticsResponse" = .ok (.pref 1) := by
    rw [getItem]
    simp [dGet]
  have hg2 : getItem
      [primMap rfs, [("GetSendStatisticsResult", .pref 0)],
       [("GetSendStatisticsResponse", .pref 1)]]
      (.pref 1) "GetSendStatisticsResult" = .ok (.pref 0) := by
    rw [getItem]
    simp [dGet]
  have hdc : dcVal
      ([primMap rfs, [("GetSendStatisticsResult", .pref 0)],
        [("GetSendStatisticsResponse", .pref 1)]].length + 1)
      [primMap rfs, [("GetSendStatisticsResult", .pref 0)],
       [("GetSendStatisticsResponse", .pref 1)]]
      (.pref 0)
      = some ([primMap rfs, [("GetSendStatisticsResult", .pref 0)],
          [("GetSendStatisticsResponse", .pref 1)]] ++ [primMap rfs],
        .pref ([primMap rfs, [("GetSendStatisticsResult", .pref 0)],
          [("GetSendStatisticsResponse", .pref 1)]].length)) :=
    dcVal_refPrim _ (by simp) _ 0 (primMap rfs) rfl (primMap_primDict rfs hs)
  have hg3 : getItem
      ([primMap rfs, [("GetSendStatisticsResult", .pref 0)],
        [("GetSendStatisticsResponse", .pref 1)]] ++ [primMap rfs])
      (.pref ([primMap rfs, [("GetSendStatisticsResult", .pref 0)],
        [("GetSendStatisticsResponse", .pref 1)]].length)) "SendDataPoints"
      = .error (.keyError "SendDataPoints") := by
    rw [getItem, getElem?_append_cons]
    simp only
    rw [dGet_primMap, hnone]
    rfl
  rw [stats_to_list]
  simp only [hg1, hg2, hdc, hg3]

theorem C5b_run (dps : List (List (String × JTree))) (tz : PyTZ)
    (hs : ∀ fs ∈ dps, scalarFields fs = true)
    (hstr : ∀ fs ∈ dps, dpTsStr fs = true)
    (hbadex : ∃ fs ∈ dps, dpTsParses fs = false) :
    (stats_to_list (statsHeap dps) (.pref (dps.length + 2)) (some tz)).2
      = .error .valueError := by
  obtain ⟨good, bad, rest, hdps, hgood, hbad⟩ := exists_first_false dpTsParses dps hbadex
  have htsOK : ∀ d ∈ good.map primMap, tsOK d = true := by
    intro d hd
    rw [List.mem_map] at hd
    obtain ⟨fs, hfs, rfl⟩ := hd
    exact dpTsParses_tsOK fs (hgood fs hfs)
  have hbadmem : bad ∈ dps := by
    rw [hdps]
    exact List.mem_append_right _ (List.mem_cons_self bad rest)
  have hbadts : tsBad (primMap bad) = true :=
    dpBad_tsBad bad (hstr bad hbadmem) hbad
  have herr := convertLoop_err tz (good.map primMap) (primMap bad) (rest.map primMap)
    (statsHeap dps) [[("SendDataPoints", .plist (refRange (dps.length + 3) dps.length))]]
    htsOK hbadts
  have hlen : (good.map primMap ++ primMap bad :: rest.map primMap).length = dps.length := by
    rw [hdps]
    simp
  rw [statsHeap_length, hlen] at herr
  have hmap : dps.map primMap = good.map primMap ++ primMap bad :: rest.map primMap := by
    rw [hdps]
    simp
  rw [stats_to_list]
  simp only [statsHeap_get_top, statsHeap_get_resp, statsHeap_copy dps hs, statsHeap2_get_sdp]
  rw [hmap]
  cases hcl : convertLoop (some tz)
      (statsHeap dps ++ (good.map primMap ++ primMap bad :: rest.map primMap) ++
        [[("SendDataPoints", .plist (refRange (dps.length + 3) dps.length))]])
      (refRange (dps.length + 3) dps.length) with
  | mk h2 res =>
    rw [hcl] at herr
    cases res with
    | error e => exact herr
    | ok l => simp at herr

/-- C5 counterexample: a datapoint whose Timestamp string is not a timestamp
at all, processed with no target timezone, does not make stats_to_list fail:
the call succeeds and returns the datapoint, contradicting the claim's
unconditional 'fails with ParseError on any malformed timestamp string'. -/
theorem C5_counterexample :
    (stats_to_list (statsHeap [wBad]) (.pref 3) none).2 = .ok [.pref 4] := by
  rfl

/-- C5 (amended): a missing SendDataPoints key makes stats_to_list fail with
KeyError "SendDataPoints" (the spec's SchemaError) in every localization mode;
a malformed Timestamp string makes it fail with ValueError (the spec's
ParseError) whenever a target timezone is provided. In both cases the
Except-typed result carries no datapoints (no partial result). -/
theorem C5_stats_to_list_failures :
    (∀ (rfs : List (String × JTree)) (localize : Option PyTZ),
        scalarFields rfs = true →
        lookupF rfs "SendDataPoints" = none →
        (stats_to_list (allocVal [] (statsEnv (.jobj rfs))).1
            (allocVal [] (statsEnv (.jobj rfs))).2 localize).2
          = .error (.keyError "SendDataPoints")) ∧
    (∀ (dps : List (List (String × JTree))) (tz : PyTZ),
        (∀ fs ∈ dps, scalarFields fs = true) →
        (∀ fs ∈ dps, dpTsStr fs = true) →
        (∃ fs ∈ dps, dpTsParses fs = false) →
        (stats_to_list (statsHeap dps) (.pref (dps.length + 2)) (some tz)).2
          = .error .valueError) := by
  constructor
  · intro rfs localize hs hnone
    rw [statsEnvObj_alloc rfs hs]
    exact C5a_run rfs localize hs hnone
  · exact C5b_run

theorem C5_witness :
    (stats_to_list (allocVal [] (statsEnv (.jobj [("Other", .jstr "x")]))).1
        (allocVal [] (statsEnv (.jobj [("Other", .jstr "x")]))).2 none).2
      = .error (.keyError "SendDataPoints") ∧
    (stats_to_list (statsHeap [wBad]) (.pref ([wBad].length + 2)) (some wTz)).2
      = .error .valueError :=
  ⟨C5_stats_to_list_failures.1 [("Other", .jstr "x")] none (by decide) rfl,
   C5_stats_to_list_failures.2 [wBad] wTz (by decide) (by decide) (by decide)⟩

theorem C3_witness :
    (∃ h2 out ks,
        stats_to_list (statsHeap wDps) (.pref (wDps.length + 2)) (some wTz)
          = (h2, .ok out) ∧
        out.length = wDps.length ∧
        keysOf h2 out = .ok ks ∧
        ks.Pairwise (fun a b => pyKeyLE a b = true)) ∧
    (∃ h2 out ks,
        stats_to_list (statsHeap wDps) (.pref (wDps.length + 2)) none
          = (h2, .ok out) ∧
        out.length = wDps.length ∧
        keysOf h2 out = .ok ks ∧
        ks.Pairwise (fun a b => pyKeyLE a b = true)) :=
  ⟨(C3_stats_to_list_sorted wDps wTz (by decide)).1 (by decide),
   (C3_stats_to_list_sorted wDps wTz (by decide)).2 (by decide)⟩

theorem C6_witness :
    ∃ h2 out ks,
      stats_to_list (statsHeap wDps) (.pref (wDps.length + 2)) (some wTz)
        = (h2, .ok out) ∧
      keysOf h2 out = .ok ks ∧
      (ks.map dtUtcOf).Perm (wDps.map dpInst) :=
  C6_timezone_roundtrip wDps wTz (by decide) (by decide)

theorem C10_witness :
    ∃ h2 out,
      stats_to_list (statsHeap [wBad]) (.pref ([wBad].length + 2)) none = (h2, .ok out) ∧
      out.length = [wBad].length ∧
      keysOf h2 (refRange ([wBad].length + 3) [wBad].length)
        = .ok ([wBad].map fun fs => .pstr ((fieldTs fs).getD "")) :=
  C10_no_localize_passthrough [wBad] (by decide) (by decide)
